import Mathlib

/-!
Verification of the numeric engine of NeuroStudio (`src/App.tsx`).

The development shallowly embeds the engine in Lean 4:

* JavaScript numbers are modelled as elements of a `LinearOrderedField α`
  (instantiated with `ℚ` for executable witnesses and with `ℝ` where the
  transcendental functions `Math.tanh` / `Math.exp` / `Math.log` matter);
  exact field arithmetic stands for IEEE doubles.
* The seeded LCG works on exact integers; all intermediate products fit
  far below `2^53`, so integer arithmetic is a faithful model of the
  JavaScript evaluation.
* `Math.random()`-driven Gaussian draws (`randn` in the source) are
  process-global, unseeded entropy.  They are modelled as an explicit
  ambient stream `g : ℕ → α` consumed positionally: the `k`-th call made
  by a generator reads `g k`.  Different program runs correspond to
  different streams.
* Transcendental library functions (`Math.cos`, `Math.sin`, `Math.hypot`,
  `Math.sqrt`, `Math.PI`) that only shape coordinate values are passed as
  abstract function parameters; no claim depends on their values.
-/

namespace Neuro

/-! ### Generic list-access helpers

The source indexes freely into nested arrays; `getD`-style access with
default `0` (resp. `[]`) is the standard total model of that indexing. -/

/-- Vector access `v[i]`, defaulting to `0`. -/
def vGet {α : Type*} [Zero α] (v : List α) (i : ℕ) : α := v.getD i 0

/-- Matrix access `m[i][j]`, defaulting to `0`. -/
def mGet {α : Type*} [Zero α] (m : List (List α)) (i j : ℕ) : α :=
  (m.getD i []).getD j 0

/-- Stack access `t[l][i][j]`, defaulting to `0`. -/
def tGet {α : Type*} [Zero α] (t : List (List (List α))) (l i j : ℕ) : α :=
  ((t.getD l []).getD i []).getD j 0

/-! ### Deterministic RNG (source: `seededRandom`, `src/App.tsx` lines 67–71)

```js
function seededRandom(seed) {
  let s = seed % 2147483647;
  if (s <= 0) s += 2147483646;
  return () => (s = (s * 16807) % 2147483647) / 2147483647;
}
```

JavaScript `%` is a truncating remainder, i.e. `Int.tmod`. -/

/-- The normalized internal state a fresh generator starts from. -/
def seedNorm (seed : ℤ) : ℤ :=
  let s := Int.tmod seed 2147483647
  if s ≤ 0 then s + 2147483646 else s

/-- One step of the multiplicative LCG: `s = (s * 16807) % 2147483647`. -/
def lcgNext (s : ℤ) : ℤ := Int.tmod (s * 16807) 2147483647

/-- Internal state after `k` calls (state `0` is the normalized seed). -/
def lcgState (seed : ℤ) : ℕ → ℤ
  | 0 => seedNorm seed
  | k + 1 => lcgNext (lcgState seed k)

/-- The `k`-th value produced by the generator (0-indexed): the state is
advanced first, then divided by the modulus. -/
def seededVal (α : Type*) [DivisionRing α] (seed : ℤ) (k : ℕ) : α :=
  ((lcgState seed (k + 1) : ℤ) : α) / (2147483647 : α)

/-! ### Data model for datasets (source: `makeDatasets`, lines 90–209)

The `name` display string of each dataset is omitted (pure UI).  The
seeded uniform source is consumed strictly sequentially, so its `k`-th
call is `seededVal seed k`; likewise the ambient Gaussian stream `g` is
consumed positionally. -/

/-- Task kind of a dataset / of the engine. -/
inductive Task where
  | classification
  | regression
deriving DecidableEq

/-- One labeled 2-D sample `{x, y, t}`. -/
structure DataPoint (α : Type*) where
  x : α
  y : α
  t : α
deriving DecidableEq

/-- A generated dataset: task kind plus the ordered point list. -/
structure Dataset (α : Type*) where
  task : Task
  points : List (DataPoint α)
deriving DecidableEq

section Datasets

variable {α : Type*} [LinearOrderedField α]

/-- Source `gen.moons` (lines 92–118).  `cosF`/`sinF`/`piV` stand for
`Math.cos`/`Math.sin`/`Math.PI`; `g` is the ambient Gaussian stream
(two draws per point, the second loop continuing after the first). -/
def moons (n : ℕ) (noise : α) (seed : ℤ) (cosF sinF : α → α) (piV : α)
    (g : ℕ → α) : Dataset α :=
  let pts1 := (List.range n).map (fun (i : ℕ) =>
    let th := ((i : α) / (n : α)) * piV
    let r1 := 1 + (seededVal α seed i - 0.5) * noise * 2
    DataPoint.mk (r1 * cosF th - 0.2 + g (2 * i) * noise * 0.15)
      (r1 * sinF th + 0.1 + g (2 * i + 1) * noise * 0.15) 0)
  let pts2 := (List.range n).map (fun (i : ℕ) =>
    let th := ((i : α) / (n : α)) * piV
    let r2 := 1 + (seededVal α seed (n + i) - 0.5) * noise * 2
    DataPoint.mk (1.0 + r2 * cosF th + 0.2 + g (2 * n + 2 * i) * noise * 0.15)
      (-r2 * sinF th - 0.1 + g (2 * n + 2 * i + 1) * noise * 0.15) 1)
  Dataset.mk Task.classification (pts1 ++ pts2)

/-- Source `gen.circles` (lines 119–136).  Takes no seed; one Gaussian draw per
point. -/
def circles (n : ℕ) (noise : α) (cosF sinF : α → α) (piV : α)
    (g : ℕ → α) : Dataset α :=
  let pts1 := (List.range n).map (fun (i : ℕ) =>
    let th := (2 * piV * (i : α)) / (n : α)
    let r := 0.6 + g i * noise
    DataPoint.mk (r * cosF th) (r * sinF th) 0)
  let pts2 := (List.range n).map (fun (i : ℕ) =>
    let th := (2 * piV * (i : α)) / (n : α)
    let r := 1.3 + g (n + i) * noise
    DataPoint.mk (r * cosF th) (r * sinF th) 1)
  Dataset.mk Task.classification (pts1 ++ pts2)

/-- Source `gen.xor` (lines 137–151).  A single loop of `n` points; the label is
the XOR of the signs of the pre-jitter coordinates (`x > 0 !== y > 0`);
Gaussian jitter is then added to the coordinates. -/
def xorGen (n : ℕ) (noise : α) (seed : ℤ) (g : ℕ → α) : Dataset α :=
  Dataset.mk Task.classification ((List.range n).map (fun (i : ℕ) =>
    let x := (seededVal α seed (2 * i) * 2 - 1) * 2
    let y := (seededVal α seed (2 * i + 1) * 2 - 1) * 2
    let t : α := if Xor' (0 < x) (0 < y) then 1 else 0
    DataPoint.mk (x + g (2 * i) * noise) (y + g (2 * i + 1) * noise) t))

/-- Source `gen.spirals` (lines 152–177).  Takes no seed; two Gaussian draws per
point. -/
def spirals (n : ℕ) (noise : α) (cosF sinF : α → α) (piV : α)
    (g : ℕ → α) : Dataset α :=
  let pts1 := (List.range n).map (fun (i : ℕ) =>
    let th := ((i : α) / (n : α)) * 4 * piV
    let r := 0.1 + th * 0.08
    DataPoint.mk (r * cosF th + g (2 * i) * noise)
      (r * sinF th + g (2 * i + 1) * noise) 0)
  let pts2 := (List.range n).map (fun (i : ℕ) =>
    let th := ((i : α) / (n : α)) * 4 * piV + piV
    let r := 0.1 + (th - piV) * 0.08
    DataPoint.mk (r * cosF th + g (2 * n + 2 * i) * noise)
      (r * sinF th + g (2 * n + 2 * i + 1) * noise) 1)
  Dataset.mk Task.classification (pts1 ++ pts2)

/-- Source `gen.sinc` (lines 178–192).  Regression; `hypotF`/`sinF` stand for
`Math.hypot`/`Math.sin`; one Gaussian draw per point, two seeded draws
per point. -/
def sinc (n : ℕ) (noise : α) (seed : ℤ) (sinF : α → α)
    (hypotF : α → α → α) (g : ℕ → α) : Dataset α :=
  Dataset.mk Task.regression ((List.range n).map (fun (i : ℕ) =>
    let x := (seededVal α seed (2 * i) * 2 - 1) * 3
    let y := (seededVal α seed (2 * i + 1) * 2 - 1) * 3
    let r := hypotF x y + 1e-6
    DataPoint.mk x y (sinF r / r + g i * noise)))

/-- Source `gen.plane` (lines 193–206).  Regression target
`0.6x − 0.3y + 0.2` plus Gaussian noise. -/
def plane (n : ℕ) (noise : α) (seed : ℤ) (g : ℕ → α) : Dataset α :=
  Dataset.mk Task.regression ((List.range n).map (fun (i : ℕ) =>
    let x := (seededVal α seed (2 * i) * 2 - 1) * 2
    let y := (seededVal α seed (2 * i + 1) * 2 - 1) * 2
    DataPoint.mk x y (0.6 * x - 0.3 * y + 0.2 + g i * noise)))

end Datasets

/-! ### Network engine (source: `useMLP`, lines 214–347)

The React hook fixes an activation, a task kind and the hidden-layer list
`H`; the mutable state is the pair `W`, `B`.  We model the state as the
structure `MLP` and pass the activation pair, the task kind and the
library functions `Math.exp` / `Math.log` (needed only for
classification) as explicit parameters. -/

/-- An activation entry of the registry `act`: the function and its
derivative, both evaluated at the pre-activation value. -/
structure Act (α : Type*) where
  f : α → α
  df : α → α

/-- Registry entry `act.relu` (lines 80–84): `f(x) = x > 0 ? x : 0`,
`df(x) = x > 0 ? 1 : 0`. -/
def reluAct {α : Type*} [LinearOrderedField α] : Act α :=
  Act.mk (fun x => if 0 < x then x else 0) (fun x => if 0 < x then 1 else 0)

/-- Registry entry `act.tanh` (lines 75–79): `f = Math.tanh`, `df(x) = 1 − tanh(x)²`. -/
noncomputable def tanhAct : Act ℝ :=
  Act.mk (fun x => Real.tanh x) (fun x => 1 - Real.tanh x ^ 2)

/-- The engine state: hidden-layer widths `H` plus the parameter stacks
`W` and `B`. -/
structure MLP (α : Type*) where
  H : List ℕ
  W : List (List (List α))
  B : List (List α)

/-- Source `const sizes = [2, ...h, 1]` (lines 225, 247, 276). -/
def sizesOf (H : List ℕ) : List ℕ := 2 :: (H ++ [1])

/-- The result of `forward` (line 269): activations `a`, pre-activations
`z`, scalar output `yhat = a[a.length-1][0]`. -/
structure Trace (α : Type*) where
  a : List (List α)
  z : List (List α)
  yhat : α

/-- Shape descriptor of a weight stack: per layer, the list of row
lengths. -/
def wShape {α : Type*} (W : List (List (List α))) : List (List ℕ) :=
  W.map (fun m => m.map List.length)

/-- Shape descriptor of a bias stack: per layer, its length. -/
def bShape {α : Type*} (B : List (List α)) : List ℕ :=
  B.map List.length

/-- The shape `initWeights` allocates: layer `l` is `sizes[l]` rows of
length `sizes[l+1]`. -/
def expectedW (H : List ℕ) : List (List ℕ) :=
  let sizes := sizesOf H
  (List.range (sizes.length - 1)).map (fun l =>
    List.replicate (sizes.getD l 0) (sizes.getD (l + 1) 0))

/-- The shape `initBiases` allocates: layer `l` has length `sizes[l+1]`. -/
def expectedB (H : List ℕ) : List ℕ :=
  let sizes := sizesOf H
  (List.range (sizes.length - 1)).map (fun l => sizes.getD (l + 1) 0)

/-- The parameter stacks are consistent with the current layer sizes. -/
def WellShaped {α : Type*} (net : MLP α) : Prop :=
  wShape net.W = expectedW net.H ∧ bShape net.B = expectedB net.H

instance {α : Type*} (net : MLP α) : Decidable (WellShaped net) :=
  inferInstanceAs (Decidable (_ ∧ _))

section Engine

variable {α : Type*} [LinearOrderedField α]

/-- Source `initWeights` (lines 224–234).  `randn()` draws are independent
process-global Gaussians; we index the stream by the position
`(l, i, j)` of the parameter being filled.  `sqrtF` stands for
`Math.sqrt`; the entry is `randn() * (1 / sqrt(fan_in))`. -/
def initWeights (H : List ℕ) (sqrtF : α → α) (g : ℕ → ℕ → ℕ → α) :
    List (List (List α)) :=
  let sizes := sizesOf H
  (List.range (sizes.length - 1)).map (fun l =>
    let inS := sizes.getD l 0
    let outS := sizes.getD (l + 1) 0
    let scale := 1 / sqrtF ((inS : α))
    (List.range inS).map (fun i =>
      (List.range outS).map (fun j => g l i j * scale)))

/-- Source `initBiases` (lines 235–240): `sizes.slice(1)` maps layer `l` to
`sizes[l+1]` entries of `randn() * 0.05`. -/
def initBiases (H : List ℕ) (g : ℕ → ℕ → α) : List (List α) :=
  let sizes := sizesOf H
  (List.range (sizes.length - 1)).map (fun l =>
    (List.range (sizes.getD (l + 1) 0)).map (fun j => g l j * 0.05))

/-- The output-layer squashing applied inside `forward` (lines 261–266):
`task === "classification" ? 1 / (1 + Math.exp(-v)) : v`. -/
def outSquash (task : Task) (expF : α → α) (v : α) : α :=
  match task with
  | Task.classification => 1 / (1 + expF (-v))
  | Task.regression => v

/-- The inner two loops of `forward` (lines 253–258):
`zl[j] = B[l][j] + Σ_i a[l][i] · W[l][i][j]`, accumulated left to right
starting from the bias. -/
def zLayer (net : MLP α) (al : List α) (l : ℕ) : List α :=
  let sizes := sizesOf net.H
  (List.range (sizes.getD (l + 1) 0)).map (fun j =>
    (List.range (sizes.getD l 0)).foldl
      (fun s i => s + al.getD i 0 * tGet net.W l i j) (mGet net.B l j))

/-- The layer loop of `forward` (lines 250–268), as a fold producing the
pair `(a, z)`. -/
def forwardAcc (A : Act α) (task : Task) (expF : α → α) (net : MLP α)
    (x y : α) : List (List α) × List (List α) :=
  let sizes := sizesOf net.H
  (List.range (sizes.length - 1)).foldl
    (fun az l =>
      let zl := zLayer net (az.1.getD l []) l
      let an := if l = sizes.length - 2 then zl.map (outSquash task expF)
        else zl.map A.f
      (az.1 ++ [an], az.2 ++ [zl]))
    ([[x, y]], [])

/-- Source `forward` (lines 246–270). -/
def forward (A : Act α) (task : Task) (expF : α → α) (net : MLP α)
    (x y : α) : Trace α :=
  let az := forwardAcc A task expF net x y
  Trace.mk az.1 az.2 ((az.1.getD (az.1.length - 1) []).getD 0 0)

/-- Closed form of the activation vectors `a[l]` computed by `forward`:
`a[0] = [x, y]`, and `a[l+1]` applies the hidden activation — or, at the
output layer, the task-dependent squashing — elementwise to
`z[l] = B[l] + a[l]·W[l]`. -/
def aVec (A : Act α) (task : Task) (expF : α → α) (net : MLP α)
    (x y : α) : ℕ → List α
  | 0 => [x, y]
  | l + 1 =>
    let sizes := sizesOf net.H
    let zl := zLayer net (aVec A task expF net x y l) l
    if l = sizes.length - 2 then zl.map (outSquash task expF)
    else zl.map A.f

/-- Closed form of the pre-activation vectors `z[l]` computed by
`forward`. -/
def zVec (A : Act α) (task : Task) (expF : α → α) (net : MLP α)
    (x y : α) (l : ℕ) : List α :=
  zLayer net (aVec A task expF net x y l) l

/-! #### Backpropagation (source: `computeBatchGrads`, lines 275–330) -/

/-- The gradient set returned by `computeBatchGrads`. -/
structure Grads (α : Type*) where
  gW : List (List (List α))
  gB : List (List α)
  loss : α

/-- The output-layer error signal `deltaL` (lines 285–296): the
classification branch sets `[yhat - t]`, the regression branch sets
`e = yhat - t; [e]`. -/
def deltaOut (task : Task) (yhat t : α) : List α :=
  match task with
  | Task.classification => [yhat - t]
  | Task.regression => [yhat - t]

/-- The per-sample loss increment (lines 286–296):
`−(t·log(yhat+1e-8) + (1−t)·log(1−yhat+1e-8))` for classification,
`0.5·e·e` for regression.  `logF` stands for `Math.log`. -/
def sampleLoss (task : Task) (logF : α → α) (yhat t : α) : α :=
  match task with
  | Task.classification =>
    -(t * logF (yhat + 1e-8) + (1 - t) * logF (1 - yhat + 1e-8))
  | Task.regression => 0.5 * (yhat - t) * (yhat - t)

/-- The backward loop (lines 298–314): starting from `[deltaL]` at the
output layer, prepend for `l = sizes.length-3 … 0` the vector
`dl[i] = (Σ_{j<nextS} deltas[l+1][j]·W[l+1][i][j]) · df(z[l][i])`;
the head of the accumulator is the delta of layer `l+1`. -/
def deltasList (A : Act α) (net : MLP α) (z : List (List α))
    (deltaL : List α) : List (List α) :=
  let sizes := sizesOf net.H
  (List.range (sizes.length - 2)).foldl
    (fun acc k =>
      let l := sizes.length - 3 - k
      ((List.range (sizes.getD (l + 1) 0)).map (fun i =>
        ((List.range (sizes.getD (l + 2) 0)).foldl
          (fun s j => s + (acc.headD []).getD j 0 * tGet net.W (l + 1) i j) 0)
          * A.df ((z.getD l []).getD i 0))) :: acc)
    [deltaL]

/-- The body of the batch loop (lines 281–324): run `forward`, compute the
deltas, and add `a[l][i]·delta[l][j]` into `gW[l][i][j]`, `delta[l][j]`
into `gB[l][j]`, and the sample loss into the loss accumulator. -/
def accumSample (A : Act α) (task : Task) (expF logF : α → α)
    (net : MLP α) (acc : Grads α) (p : (α × α) × α) : Grads α :=
  let sizes := sizesOf net.H
  let tr := forward A task expF net p.1.1 p.1.2
  let deltas := deltasList A net tr.z (deltaOut task tr.yhat p.2)
  Grads.mk
    ((List.range (sizes.length - 1)).map (fun l =>
      (List.range (sizes.getD l 0)).map (fun i =>
        (List.range (sizes.getD (l + 1) 0)).map (fun j =>
          tGet acc.gW l i j
            + (tr.a.getD l []).getD i 0 * (deltas.getD l []).getD j 0))))
    ((List.range (sizes.length - 1)).map (fun l =>
      (List.range (sizes.getD (l + 1) 0)).map (fun j =>
        mGet acc.gB l j + (deltas.getD l []).getD j 0)))
    (acc.loss + sampleLoss task logF tr.yhat p.2)

/-- Source `W.map(layer => layer.map(row => row.map(() => 0)))`, line 277. -/
def zerosLike3 (W : List (List (List α))) : List (List (List α)) :=
  W.map (fun layer => layer.map (fun row => row.map (fun _ => 0)))

/-- Source `B.map(arr => arr.map(() => 0))`, line 278. -/
def zerosLike2 (B : List (List α)) : List (List α) :=
  B.map (fun arr => arr.map (fun _ => 0))

/-- Source `computeBatchGrads` (lines 275–330): fold the batch into the zeroed
accumulators, then divide every accumulator entry and the loss by
`n = XY.length`. -/
def computeBatchGrads (A : Act α) (task : Task) (expF logF : α → α)
    (net : MLP α) (XY : List (α × α)) (yTrue : List α) : Grads α :=
  let acc := (XY.zip yTrue).foldl (accumSample A task expF logF net)
    (Grads.mk (zerosLike3 net.W) (zerosLike2 net.B) 0)
  let n := XY.length
  Grads.mk
    (acc.gW.map (fun layer => layer.map (fun row =>
      row.map (fun v => v / (n : α)))))
    (acc.gB.map (fun arr => arr.map (fun v => v / (n : α))))
    (acc.loss / (n : α))

/-- Source `step` (lines 332–344): compute the batch gradients, then replace
every `W[l][i][j]` by `W[l][i][j] − lr·gW[l][i][j]` and every `B[l][j]`
by `B[l][j] − lr·gB[l][j]`; return the batch loss.  (The source maps over
the previous arrays with their indices; the range-map below reads the
same entries positionally.) -/
def stepFn (A : Act α) (task : Task) (expF logF : α → α) (net : MLP α)
    (XY : List (α × α)) (yTrue : List α) (lr : α) : MLP α × α :=
  let r := computeBatchGrads A task expF logF net XY yTrue
  let W2 := (List.range net.W.length).map (fun l =>
    let layer := net.W.getD l []
    (List.range layer.length).map (fun i =>
      let row := layer.getD i []
      (List.range row.length).map (fun j =>
        row.getD j 0 - lr * tGet r.gW l i j)))
  let B2 := (List.range net.B.length).map (fun l =>
    let arr := net.B.getD l []
    (List.range arr.length).map (fun j =>
      arr.getD j 0 - lr * mGet r.gB l j))
  (MLP.mk net.H W2 B2, r.loss)

/-! #### Spec-side per-sample quantities (the claims' formulas)

`specDeltaAux d` is the delta vector of the layer at distance `d` below
the output layer, written exactly as the spec states it:
`delta_out = yhat − target`, and
`delta[l][i] = df(z[l][i]) · Σ_j delta[l+1][j]·W[l+1][i][j]`. -/

def specDeltaAux (A : Act α) (net : MLP α) (tr : Trace α) (t : α) :
    ℕ → List α
  | 0 => [tr.yhat - t]
  | d + 1 =>
    let sizes := sizesOf net.H
    let l := sizes.length - 3 - d
    (List.range (sizes.getD (l + 1) 0)).map (fun i =>
      A.df ((tr.z.getD l []).getD i 0)
        * Finset.sum (Finset.range (sizes.getD (l + 2) 0)) (fun j =>
            (specDeltaAux A net tr t d).getD j 0 * tGet net.W (l + 1) i j))

/-- The spec's delta vector of layer `l` (empty beyond the depth of the
network). -/
def sampleDelta (A : Act α) (net : MLP α) (tr : Trace α) (t : α)
    (l : ℕ) : List α :=
  let sizes := sizesOf net.H
  if l < sizes.length - 1 then specDeltaAux A net tr t (sizes.length - 2 - l)
  else []

/-- The forward trace of one batch element `p = ((x, y), t)`. -/
def sampleTrace (A : Act α) (task : Task) (expF : α → α) (net : MLP α)
    (p : (α × α) × α) : Trace α :=
  forward A task expF net p.1.1 p.1.2

/-- The spec's per-sample weight-gradient contribution
`a[l][i]·delta[l][j]`. -/
def contribW (A : Act α) (task : Task) (expF : α → α) (net : MLP α)
    (p : (α × α) × α) (l i j : ℕ) : α :=
  vGet ((sampleTrace A task expF net p).a.getD l []) i
    * vGet (sampleDelta A net (sampleTrace A task expF net p) p.2 l) j

/-- The spec's per-sample bias-gradient contribution `delta[l][j]`. -/
def contribB (A : Act α) (task : Task) (expF : α → α) (net : MLP α)
    (p : (α × α) × α) (l j : ℕ) : α :=
  vGet (sampleDelta A net (sampleTrace A task expF net p) p.2 l) j

/-- The gradient accumulators carry no entry outside the `sizes` shape. -/
def GradsAligned (H : List ℕ) (G : Grads α) : Prop :=
  (∀ l i j : ℕ, ¬(l < (sizesOf H).length - 1 ∧ i < (sizesOf H).getD l 0
      ∧ j < (sizesOf H).getD (l + 1) 0) → tGet G.gW l i j = 0) ∧
  (∀ l j : ℕ, ¬(l < (sizesOf H).length - 1
      ∧ j < (sizesOf H).getD (l + 1) 0) → mGet G.gB l j = 0)

end Engine

/-- A tiny concrete well-shaped network over `ℚ` (`H = [1]`) used by the
witnesses. -/
def exNetQ : MLP ℚ := MLP.mk [1] [[[1], [1]], [[1]]] [[0], [0]]

/-- The worked-example network of the spec: architecture `[2, 2, 1]`,
`W = [[[1,−1],[0.5,0.5]],[[1],[1]]]`, `B = [[0,0],[0]]`. -/
noncomputable def exNetR : MLP ℝ :=
  MLP.mk [2] [[[1, -1], [0.5, 0.5]], [[1], [1]]] [[0, 0], [0]]

/-- The logistic squashing `1 / (1 + Math.exp(-v))` the engine applies to
the classification output (line 264). -/
noncomputable def sigmoidR (z : ℝ) : ℝ := 1 / (1 + Real.exp (-z))

/-- The ε-free binary cross-entropy the implicit claim refers to (the
engine's returned loss adds `1e-8` inside both logarithms instead). -/
noncomputable def bceFree (yhat t : ℝ) : ℝ :=
  -(t * Real.log yhat + (1 - t) * Real.log (1 - yhat))

/-- The net with the single weight `W[l][i][j]` replaced by `w` (all
other parameters untouched); the curve along which the claim's partial
derivative in `W[l][i][j]` is taken. -/
def setW {α : Type*} (net : MLP α) (l i j : ℕ) (w : α) : MLP α :=
  MLP.mk net.H
    (net.W.set l ((net.W.getD l []).set i
      (((net.W.getD l []).getD i []).set j w)))
    net.B

/-- The net with the single bias `B[l][j]` replaced by `b`. -/
def setB {α : Type*} (net : MLP α) (l j : ℕ) (b : α) : MLP α :=
  MLP.mk net.H net.W (net.B.set l ((net.B.getD l []).set j b))

/-- The ε-free batch objective the implicit claim differentiates: the
batch mean of `bceFree` at the engine's (sigmoid-squashed) outputs. -/
noncomputable def batchBce (A : Act ℝ) (net : MLP ℝ)
    (XY : List (ℝ × ℝ)) (yTrue : List ℝ) : ℝ :=
  (((XY.zip yTrue).map (fun p =>
    bceFree (sampleTrace A Task.classification Real.exp net p).yhat
      p.2)).sum) / (XY.length : ℝ)

/-- Forward-propagated tangent vectors: `dzAux s d j` is the derivative
of `z[l₀+d][j]` along a parameter curve whose layer-`l₀` pre-activation
derivative is `s`; it follows the tangent recurrence
`dz[m+1][j] = Σ_i df(z[m][i])·dz[m][i]·W[m+1][i][j]`. -/
def dzAux {α : Type*} [LinearOrderedField α] (A : Act α) (net : MLP α)
    (tr : Trace α) (l0 : ℕ) (s : ℕ → α) : ℕ → ℕ → α
  | 0, j => s j
  | d + 1, j =>
    Finset.sum (Finset.range ((sizesOf net.H).getD (l0 + d + 1) 0)) (fun i =>
      A.df ((tr.z.getD (l0 + d) []).getD i 0) * dzAux A net tr l0 s d i
        * tGet net.W (l0 + d + 1) i j)

theorem getD_range_map {β : Type*} (f : ℕ → β) (n k : ℕ) (d : β) :
    ((List.range n).map f).getD k d = if k < n then f k else d := by
  rcases lt_or_ge k n with h | h
  · rw [List.getD_eq_getElem?_getD, List.getElem?_map, List.getElem?_range h]
    simp [h]
  · rw [List.getD_eq_getElem?_getD, List.getElem?_map,
      List.getElem?_eq_none (by simpa using h)]
    simp [Nat.not_lt.mpr h]

theorem getD_map_zero {α β : Type*} [Zero α] [Zero β] (f : α → β)
    (hf : f 0 = 0) (l : List α) (k : ℕ) :
    (l.map f).getD k 0 = f (l.getD k 0) := by
  rcases lt_or_ge k l.length with h | h
  · rw [List.getD_eq_getElem?_getD, List.getElem?_map,
      List.getElem?_eq_getElem h]
    simp [List.getD_eq_getElem?_getD, List.getElem?_eq_getElem h]
  · rw [List.getD_eq_getElem?_getD, List.getElem?_map,
      List.getElem?_eq_none (by simpa using h)]
    simp [List.getD_eq_getElem?_getD, List.getElem?_eq_none (by simpa using h), hf]

theorem foldl_add_finset {α : Type*} [AddCommMonoid α] (f : ℕ → α) (b : α) (n : ℕ) :
    (List.range n).foldl (fun s i => s + f i) b = b + Finset.sum (Finset.range n) f := by
  induction n with
  | zero => simp
  | succ n ih =>
    rw [List.range_succ, List.foldl_append, ih, Finset.sum_range_succ]
    simp [add_assoc]

theorem foldl_add_map {α β : Type*} [AddCommMonoid α] (f : β → α) (b : α) (l : List β) :
    l.foldl (fun s p => s + f p) b = b + (l.map f).sum := by
  induction l generalizing b with
  | nil => simp
  | cons p l ih =>
    rw [List.foldl_cons, ih, List.map_cons, List.sum_cons, add_assoc]

theorem tmod_lower_bound (a : ℤ) : -2147483647 < Int.tmod a 2147483647 := by
  cases a with
  | ofNat m =>
    have h := Int.tmod_nonneg (a := Int.ofNat m) 2147483647 (Int.ofNat_nonneg m)
    omega
  | negSucc m =>
    rw [show Int.tmod (Int.negSucc m) 2147483647
        = -(((m + 1) % 2147483647 : ℕ) : ℤ) from rfl]
    omega

theorem seedNorm_bounds (seed : ℤ) :
    0 ≤ seedNorm seed ∧ seedNorm seed < 2147483647 := by
  unfold seedNorm
  have h1 := tmod_lower_bound seed
  have h2 := Int.tmod_lt_of_pos seed (b := 2147483647) (by norm_num)
  by_cases h : Int.tmod seed 2147483647 ≤ 0 <;> simp [h] <;> omega

theorem lcgNext_mem (s : ℤ) (h0 : 0 < s) (h1 : s < 2147483647) :
    0 < lcgNext s ∧ lcgNext s < 2147483647 := by
  have hnn : (0 : ℤ) ≤ s * 16807 := by positivity
  have heq : lcgNext s = s * 16807 % 2147483647 :=
    Int.tmod_eq_emod hnn (by norm_num)
  have hlt : s * 16807 % 2147483647 < 2147483647 :=
    Int.emod_lt_of_pos _ (by norm_num)
  have hge : 0 ≤ s * 16807 % 2147483647 :=
    Int.emod_nonneg _ (by norm_num)
  refine ⟨?_, by omega⟩
  rcases hge.lt_or_eq with h | h
  · omega
  · exfalso
    have hdvd : (2147483647 : ℤ) ∣ s * 16807 :=
      Int.dvd_of_emod_eq_zero h.symm
    have hcop : IsCoprime (2147483647 : ℤ) 16807 := by
      rw [Int.isCoprime_iff_gcd_eq_one]; decide
    have hdvd2 : (2147483647 : ℤ) ∣ s := hcop.dvd_of_dvd_mul_right hdvd
    have := Int.le_of_dvd h0 hdvd2
    omega

theorem lcgState_mem (seed : ℤ) (h : seedNorm seed ≠ 0) (k : ℕ) :
    0 < lcgState seed k ∧ lcgState seed k < 2147483647 := by
  induction k with
  | zero =>
    have hb := seedNorm_bounds seed
    exact ⟨lt_of_le_of_ne hb.1 (Ne.symm h), hb.2⟩
  | succ k ih => exact lcgNext_mem _ ih.1 ih.2

/-- C7 (corrected).  The output sequence of `seededRandom` is a pure
function of the seed, each call applying `s := (s * 16807) % 2147483647`
and returning `s / 2147483647` (this is `seededVal` by definition).  The
seed, however, is only normalized into the half-open interval
`[0, 2147483646]`, not into `(0, modulus)`: whenever the normalized state
is nonzero — in particular for every nonnegative seed — all produced
values lie strictly in `(0, 1)`. -/
theorem C7_lcg_range (seed : ℤ) (h : seedNorm seed ≠ 0) :
    (0 < seedNorm seed ∧ seedNorm seed < 2147483647) ∧
    ∀ k : ℕ, 0 < seededVal ℚ seed k ∧ seededVal ℚ seed k < 1 := by
  refine ⟨(lcgState_mem seed h 0 : _), fun k => ?_⟩
  have hk := lcgState_mem seed h (k + 1)
  unfold seededVal
  constructor
  · apply div_pos
    · exact_mod_cast hk.1
    · norm_num
  · rw [div_lt_one (by norm_num)]
    exact_mod_cast hk.2

/-- Witness for `C7_lcg_range` at seed `7` (the seed the app uses). -/
theorem C7_lcg_range_witness :
    seedNorm 7 ≠ 0 ∧
      ((0 < seedNorm 7 ∧ seedNorm 7 < 2147483647) ∧
        ∀ k : ℕ, 0 < seededVal ℚ 7 k ∧ seededVal ℚ 7 k < 1) :=
  ⟨by decide, C7_lcg_range 7 (by decide)⟩

/-- C7 counterexample: for seed `-2147483646` the normalization
`s % 2147483647` followed by `s += 2147483646` lands exactly on `0`, which
is not in `(0, modulus)`, and the generator then produces `0` forever —
not a value in `(0, 1)` as the claim states. -/
theorem C7_counterexample :
    seedNorm (-2147483646) = 0 ∧ seededVal ℚ (-2147483646) 0 = 0 := by
  constructor
  · decide
  · show ((lcgState (-2147483646) 1 : ℤ) : ℚ) / 2147483647 = 0
    have h : lcgState (-2147483646) 1 = 0 := by decide
    rw [h]
    norm_num

section DatasetClaims

variable {α : Type*} [LinearOrderedField α]

theorem countP_map_true {β γ : Type*} (f : β → γ) (p : γ → Bool) (l : List β)
    (h : ∀ b, p (f b) = true) : (l.map f).countP p = l.length := by
  induction l with
  | nil => rfl
  | cons b l ih => simp [List.countP_cons, h, ih]

theorem countP_map_false {β γ : Type*} (f : β → γ) (p : γ → Bool) (l : List β)
    (h : ∀ b, p (f b) = false) : (l.map f).countP p = 0 := by
  induction l with
  | nil => rfl
  | cons b l ih => simp [List.countP_cons, h, ih]

theorem all_map_of_forall {β γ : Type*} (f : β → γ) (p : γ → Bool) (l : List β)
    (h : ∀ b, p (f b) = true) : (l.map f).all p = true := by
  induction l with
  | nil => rfl
  | cons b l ih => simp [h, ih]

/-- C8 (corrected).  Point for point, the labels of an `xor` dataset (and
its pre-jitter coordinates) depend only on `(count, noise, seed)`; but the
coordinates receive jitter `randn() * noise` from the unseeded,
process-global Gaussian source (modelled by the ambient streams `g1`,
`g2`), so two generations agree in full only when `noise = 0` (or when the
ambient draws happen to coincide). -/
theorem C8_xor_reproducibility (n : ℕ) (noise : α) (seed : ℤ)
    (g1 g2 : ℕ → α) :
    ((xorGen n noise seed g1).points.map DataPoint.t)
      = ((xorGen n noise seed g2).points.map DataPoint.t) ∧
    xorGen n (0 : α) seed g1 = xorGen n (0 : α) seed g2 := by
  constructor
  · simp only [xorGen, List.map_map]
    congr 1
  · simp only [xorGen, mul_zero, add_zero]

/-- C8 counterexample: with `count = 1`, `noise = 1`, `seed = 7`, two runs
whose ambient Gaussian streams differ (all-zero vs. all-one) produce
different point sequences, refuting "identical coordinates and labels" for
equal `(count, noise, seed)`. -/
theorem C8_counterexample :
    xorGen (α := ℚ) 1 1 7 (fun _ => 0) ≠ xorGen (α := ℚ) 1 1 7 (fun _ => 1) := by
  intro h
  have hp := congrArg Dataset.points h
  simp only [xorGen, List.range_succ, List.range_zero, List.nil_append,
    List.map_cons, List.map_nil, List.cons.injEq, and_true,
    DataPoint.mk.injEq] at hp
  have hx := hp.1
  norm_num at hx

/-- C9 (corrected).  `moons`, `circles` and `spirals` emit `2·count`
points (`count` with label 0 followed by `count` with label 1), but `xor`
runs a single loop and emits exactly `count` points; `sinc` and `plane`
emit `count` points.  Every classification label is `0` or `1`. -/
theorem C9_count_convention (n : ℕ) (noise : α) (seed : ℤ)
    (cosF sinF : α → α) (piV : α) (hypotF : α → α → α) (g : ℕ → α) :
    (moons n noise seed cosF sinF piV g).points.length = 2 * n ∧
    (circles n noise cosF sinF piV g).points.length = 2 * n ∧
    (spirals n noise cosF sinF piV g).points.length = 2 * n ∧
    (xorGen n noise seed g).points.length = n ∧
    (sinc n noise seed sinF hypotF g).points.length = n ∧
    (plane n noise seed g).points.length = n ∧
    (moons n noise seed cosF sinF piV g).points.countP
      (fun p => decide (p.t = 0)) = n ∧
    (moons n noise seed cosF sinF piV g).points.countP
      (fun p => decide (p.t = 1)) = n ∧
    (circles n noise cosF sinF piV g).points.countP
      (fun p => decide (p.t = 0)) = n ∧
    (circles n noise cosF sinF piV g).points.countP
      (fun p => decide (p.t = 1)) = n ∧
    (spirals n noise cosF sinF piV g).points.countP
      (fun p => decide (p.t = 0)) = n ∧
    (spirals n noise cosF sinF piV g).points.countP
      (fun p => decide (p.t = 1)) = n ∧
    (moons n noise seed cosF sinF piV g).points.all
      (fun p => decide (p.t = 0 ∨ p.t = 1)) = true ∧
    (circles n noise cosF sinF piV g).points.all
      (fun p => decide (p.t = 0 ∨ p.t = 1)) = true ∧
    (spirals n noise cosF sinF piV g).points.all
      (fun p => decide (p.t = 0 ∨ p.t = 1)) = true ∧
    (xorGen n noise seed g).points.all
      (fun p => decide (p.t = 0 ∨ p.t = 1)) = true := by
  refine ⟨?_, ?_, ?_, ?_, ?_, ?_, ?_, ?_, ?_, ?_, ?_, ?_, ?_, ?_, ?_, ?_⟩
  · simp [moons]; ring
  · simp [circles]; ring
  · simp [spirals]; ring
  · simp [xorGen]
  · simp [sinc]
  · simp [plane]
  · simp only [moons, List.countP_append]
    rw [countP_map_true _ _ _ (fun i => by norm_num),
      countP_map_false _ _ _ (fun i => by norm_num)]
    simp
  · simp only [moons, List.countP_append]
    rw [countP_map_false _ _ _ (fun i => by norm_num),
      countP_map_true _ _ _ (fun i => by norm_num)]
    simp
  · simp only [circles, List.countP_append]
    rw [countP_map_true _ _ _ (fun i => by norm_num),
      countP_map_false _ _ _ (fun i => by norm_num)]
    simp
  · simp only [circles, List.countP_append]
    rw [countP_map_false _ _ _ (fun i => by norm_num),
      countP_map_true _ _ _ (fun i => by norm_num)]
    simp
  · simp only [spirals, List.countP_append]
    rw [countP_map_true _ _ _ (fun i => by norm_num),
      countP_map_false _ _ _ (fun i => by norm_num)]
    simp
  · simp only [spirals, List.countP_append]
    rw [countP_map_false _ _ _ (fun i => by norm_num),
      countP_map_true _ _ _ (fun i => by norm_num)]
    simp
  · simp only [moons, List.all_append, Bool.and_eq_true]
    exact ⟨all_map_of_forall _ _ _ (fun i => by norm_num),
      all_map_of_forall _ _ _ (fun i => by norm_num)⟩
  · simp only [circles, List.all_append, Bool.and_eq_true]
    exact ⟨all_map_of_forall _ _ _ (fun i => by norm_num),
      all_map_of_forall _ _ _ (fun i => by norm_num)⟩
  · simp only [spirals, List.all_append, Bool.and_eq_true]
    exact ⟨all_map_of_forall _ _ _ (fun i => by norm_num),
      all_map_of_forall _ _ _ (fun i => by norm_num)⟩
  · simp only [xorGen]
    apply all_map_of_forall
    intro i
    by_cases hx : Xor' (0 < (seededVal α seed (2 * i) * 2 - 1) * 2)
        (0 < (seededVal α seed (2 * i + 1) * 2 - 1) * 2) <;>
      simp [hx]

/-- C9 counterexample: `xor` with `count = 1` emits a single point, not
`2·count = 2` points as the claim states. -/
theorem C9_counterexample :
    (xorGen (α := ℚ) 1 0 7 (fun _ => 0)).points.length ≠ 2 * 1 := by
  simp [xorGen]

end DatasetClaims

section Engine

variable {α : Type*} [LinearOrderedField α]

theorem sizesOf_length (H : List ℕ) : (sizesOf H).length = H.length + 2 := by
  simp [sizesOf]

theorem zVec_length (A : Act α) (task : Task) (expF : α → α) (net : MLP α)
    (x y : α) (l : ℕ) :
    (zVec A task expF net x y l).length = (sizesOf net.H).getD (l + 1) 0 := by
  simp [zVec, zLayer]

theorem aVec_length (A : Act α) (task : Task) (expF : α → α) (net : MLP α)
    (x y : α) (l : ℕ) :
    (aVec A task expF net x y l).length = (sizesOf net.H).getD l 0 := by
  cases l with
  | zero => simp [aVec, sizesOf]
  | succ l =>
    show (aVec A task expF net x y (l + 1)).length = _
    unfold aVec
    dsimp only
    split <;> simp [zLayer]

theorem forward_fold_char (A : Act α) (task : Task) (expF : α → α)
    (net : MLP α) (x y : α) (k : ℕ) :
    (List.range k).foldl
      (fun az l =>
        let zl := zLayer net (az.1.getD l []) l
        let an := if l = (sizesOf net.H).length - 2 then
            zl.map (outSquash task expF)
          else zl.map A.f
        (az.1 ++ [an], az.2 ++ [zl]))
      ([[x, y]], [])
    = ((List.range (k + 1)).map (aVec A task expF net x y),
       (List.range k).map (zVec A task expF net x y)) := by
  induction k with
  | zero =>
    rw [show List.range 1 = [0] from rfl]
    simp [aVec]
  | succ k ih =>
    rw [List.range_succ, List.foldl_append, ih, List.foldl_cons, List.foldl_nil]
    dsimp only
    have ha : ((List.range (k + 1)).map (aVec A task expF net x y)).getD k []
        = aVec A task expF net x y k := by
      rw [getD_range_map]
      simp
    rw [ha]
    simp only [Prod.mk.injEq]
    constructor
    · rw [List.range_succ (n := k + 1), List.map_append]
      congr 1
    · rw [List.map_append]
      rfl

theorem forwardAcc_eq (A : Act α) (task : Task) (expF : α → α)
    (net : MLP α) (x y : α) :
    forwardAcc A task expF net x y
      = ((List.range ((sizesOf net.H).length - 1 + 1)).map
          (aVec A task expF net x y),
         (List.range ((sizesOf net.H).length - 1)).map
          (zVec A task expF net x y)) :=
  forward_fold_char A task expF net x y ((sizesOf net.H).length - 1)

theorem forward_a_eq (A : Act α) (task : Task) (expF : α → α)
    (net : MLP α) (x y : α) :
    (forward A task expF net x y).a
      = (List.range (net.H.length + 2)).map (aVec A task expF net x y) := by
  show (forwardAcc A task expF net x y).1 = _
  rw [forwardAcc_eq, sizesOf_length]
  rfl

theorem forward_z_eq (A : Act α) (task : Task) (expF : α → α)
    (net : MLP α) (x y : α) :
    (forward A task expF net x y).z
      = (List.range (net.H.length + 1)).map (zVec A task expF net x y) := by
  show (forwardAcc A task expF net x y).2 = _
  rw [forwardAcc_eq, sizesOf_length]
  rfl

theorem forward_a_getD (A : Act α) (task : Task) (expF : α → α)
    (net : MLP α) (x y : α) (l : ℕ) :
    (forward A task expF net x y).a.getD l []
      = if l < net.H.length + 2 then aVec A task expF net x y l else [] := by
  rw [forward_a_eq, getD_range_map]

theorem forward_z_getD (A : Act α) (task : Task) (expF : α → α)
    (net : MLP α) (x y : α) (l : ℕ) :
    (forward A task expF net x y).z.getD l []
      = if l < net.H.length + 1 then zVec A task expF net x y l else [] := by
  rw [forward_z_eq, getD_range_map]

theorem getD_map_default {β γ : Type*} (f : β → γ) (d : β) (e : γ)
    (hf : f d = e) (l : List β) (k : ℕ) :
    (l.map f).getD k e = f (l.getD k d) := by
  rcases lt_or_ge k l.length with h | h
  · rw [List.getD_eq_getElem?_getD, List.getElem?_map,
      List.getElem?_eq_getElem h]
    simp [List.getD_eq_getElem?_getD, List.getElem?_eq_getElem h]
  · rw [List.getD_eq_getElem?_getD, List.getElem?_map,
      List.getElem?_eq_none (by simpa using h)]
    simp [List.getD_eq_getElem?_getD, List.getElem?_eq_none (by simpa using h), hf]

theorem getD_replicate {β : Type*} (c d : β) (n k : ℕ) :
    (List.replicate n c).getD k d = if k < n then c else d := by
  induction n generalizing k with
  | zero => simp
  | succ n ih =>
    cases k with
    | zero => simp [List.replicate]
    | succ k => simpa [List.replicate] using ih k

theorem sizesOf_getD_last (H : List ℕ) :
    (sizesOf H).getD (H.length + 1) 0 = 1 := by
  show (2 :: (H ++ [1])).getD (H.length + 1) 0 = 1
  rw [List.getD_cons_succ]
  induction H with
  | nil => rfl
  | cons h H ih => simpa using ih

theorem sizesOf_getD_of_ge (H : List ℕ) (l : ℕ) (h : H.length + 2 ≤ l) :
    (sizesOf H).getD l 0 = 0 :=
  List.getD_eq_default _ _ (by rw [sizesOf_length]; exact h)

theorem wellShaped_w_length {net : MLP α} (h : WellShaped net) :
    net.W.length = net.H.length + 1 := by
  have := congrArg List.length h.1
  simpa [wShape, expectedW, sizesOf_length] using this

theorem wellShaped_b_length {net : MLP α} (h : WellShaped net) :
    net.B.length = net.H.length + 1 := by
  have := congrArg List.length h.2
  simpa [bShape, expectedB, sizesOf_length] using this

theorem wellShaped_row_map {net : MLP α} (h : WellShaped net) (l : ℕ) :
    (net.W.getD l []).map List.length
      = if l < net.H.length + 1 then
          List.replicate ((sizesOf net.H).getD l 0) ((sizesOf net.H).getD (l + 1) 0)
        else [] := by
  have h1 := congrArg (fun s => s.getD l ([] : List ℕ)) h.1
  simp only [wShape, expectedW] at h1
  rw [getD_map_default (fun m => m.map List.length) [] [] rfl] at h1
  rw [h1, getD_range_map, sizesOf_length]
  rfl

theorem wellShaped_row_length {net : MLP α} (h : WellShaped net) (l : ℕ) :
    (net.W.getD l []).length
      = if l < net.H.length + 1 then (sizesOf net.H).getD l 0 else 0 := by
  have := congrArg List.length (wellShaped_row_map h l)
  rw [List.length_map] at this
  rw [this]
  split <;> simp

theorem wellShaped_entry_length {net : MLP α} (h : WellShaped net) (l i : ℕ) :
    ((net.W.getD l []).getD i []).length
      = if l < net.H.length + 1 ∧ i < (sizesOf net.H).getD l 0 then
          (sizesOf net.H).getD (l + 1) 0
        else 0 := by
  have h1 := congrArg (fun s => s.getD i (0 : ℕ)) (wellShaped_row_map h l)
  simp only at h1
  rw [getD_map_default List.length [] 0 rfl] at h1
  rw [h1]
  by_cases hl : l < net.H.length + 1
  · simp only [hl, if_true, true_and]
    rw [getD_replicate]
  · simp [hl]

theorem wellShaped_b_entry_length {net : MLP α} (h : WellShaped net) (l : ℕ) :
    (net.B.getD l []).length
      = if l < net.H.length + 1 then (sizesOf net.H).getD (l + 1) 0 else 0 := by
  have h1 := congrArg (fun s => s.getD l (0 : ℕ)) h.2
  simp only [bShape, expectedB] at h1
  rw [getD_map_default List.length [] 0 rfl] at h1
  rw [h1, getD_range_map, sizesOf_length]
  rfl

/-- Out-of-range weight reads are zero for a well-shaped net. -/
theorem tGet_out_col {net : MLP α} (h : WellShaped net) (l i j : ℕ)
    (hj : (sizesOf net.H).getD (l + 1) 0 ≤ j) : tGet net.W l i j = 0 := by
  unfold tGet
  apply List.getD_eq_default
  rw [wellShaped_entry_length h]
  split
  · exact hj
  · exact Nat.zero_le j

theorem tGet_out_layer {net : MLP α} (h : WellShaped net) (l i j : ℕ)
    (hl : net.H.length + 1 ≤ l) : tGet net.W l i j = 0 := by
  unfold tGet
  apply List.getD_eq_default
  rw [wellShaped_entry_length h]
  simp [Nat.not_lt.mpr hl]

theorem mGet_out {net : MLP α} (h : WellShaped net) (l j : ℕ)
    (hj : (sizesOf net.H).getD (l + 1) 0 ≤ j ∨ net.H.length + 1 ≤ l) :
    mGet net.B l j = 0 := by
  unfold mGet
  apply List.getD_eq_default
  rw [wellShaped_b_entry_length h]
  rcases hj with hj | hl
  · split
    · exact hj
    · exact Nat.zero_le j
  · simp [Nat.not_lt.mpr hl]

theorem forward_yhat_eq (A : Act α) (task : Task) (expF : α → α)
    (net : MLP α) (x y : α) :
    (forward A task expF net x y).yhat
      = vGet (aVec A task expF net x y (net.H.length + 1)) 0 := by
  show ((forwardAcc A task expF net x y).1.getD
    ((forwardAcc A task expF net x y).1.length - 1) []).getD 0 0 = _
  rw [forwardAcc_eq]
  simp only [sizesOf_length]
  rw [List.length_map, List.length_range, getD_range_map]
  simp [vGet]

theorem deltaOut_eq (task : Task) (yhat t : α) :
    deltaOut task yhat t = [yhat - t] := by
  cases task <;> rfl

theorem headD_range_map {β : Type*} (f : ℕ → β) (k : ℕ) (d : β) :
    ((List.range (k + 1)).map f).headD d = f 0 := by
  rw [List.range_succ_eq_map]
  rfl

theorem deltasList_fold (A : Act α) (net : MLP α) (tr : Trace α) (t : α)
    (k : ℕ) :
    (List.range k).foldl
      (fun acc m =>
        let l := (sizesOf net.H).length - 3 - m
        ((List.range ((sizesOf net.H).getD (l + 1) 0)).map (fun i =>
          ((List.range ((sizesOf net.H).getD (l + 2) 0)).foldl
            (fun s j => s + (acc.headD []).getD j 0 * tGet net.W (l + 1) i j) 0)
            * A.df ((tr.z.getD l []).getD i 0))) :: acc)
      [deltaOut task tr.yhat t]
    = (List.range (k + 1)).map (fun m => specDeltaAux A net tr t (k - m)) := by
  induction k with
  | zero =>
    rw [show List.range 1 = [0] from rfl]
    simp [deltaOut_eq, specDeltaAux]
  | succ k ih =>
    rw [List.range_succ, List.foldl_append, ih, List.foldl_cons, List.foldl_nil]
    dsimp only
    rw [headD_range_map, Nat.sub_zero]
    have hnew : ((List.range ((sizesOf net.H).getD
          ((sizesOf net.H).length - 3 - k + 1) 0)).map (fun i =>
        ((List.range ((sizesOf net.H).getD
            ((sizesOf net.H).length - 3 - k + 2) 0)).foldl
          (fun s j => s + (specDeltaAux A net tr t k).getD j 0
            * tGet net.W ((sizesOf net.H).length - 3 - k + 1) i j) 0)
          * A.df ((tr.z.getD ((sizesOf net.H).length - 3 - k) []).getD i 0)))
        = specDeltaAux A net tr t (k + 1) := by
      conv_rhs => rw [specDeltaAux]
      apply List.map_congr_left
      intro i _
      rw [foldl_add_finset, zero_add, mul_comm]
    rw [hnew, List.range_succ_eq_map (n := k + 1), List.map_cons,
      List.map_map]
    refine congrArg₂ List.cons ?_ ?_
    · rw [Nat.sub_zero]
    · apply List.map_congr_left
      intro m _
      simp only [Function.comp_apply]
      congr 1
      omega

theorem deltasList_getD (A : Act α) (task : Task) (net : MLP α)
    (tr : Trace α) (t : α) (l : ℕ) :
    (deltasList A net tr.z (deltaOut task tr.yhat t)).getD l []
      = sampleDelta A net tr t l := by
  have h1 : deltasList A net tr.z (deltaOut task tr.yhat t)
      = (List.range ((sizesOf net.H).length - 2 + 1)).map
        (fun m => specDeltaAux A net tr t ((sizesOf net.H).length - 2 - m)) :=
    deltasList_fold A net tr t ((sizesOf net.H).length - 2)
  rw [h1, getD_range_map]
  unfold sampleDelta
  dsimp only
  have hL : (sizesOf net.H).length = net.H.length + 2 := sizesOf_length net.H
  by_cases h : l < (sizesOf net.H).length - 1
  · rw [if_pos (by omega), if_pos h]
  · rw [if_neg (by omega), if_neg h]

theorem specDeltaAux_length (A : Act α) (net : MLP α) (tr : Trace α)
    (t : α) (d : ℕ) :
    (specDeltaAux A net tr t d).length
      = if d = 0 then 1
        else (sizesOf net.H).getD ((sizesOf net.H).length - 3 - (d - 1) + 1) 0 := by
  cases d with
  | zero => rfl
  | succ d =>
    rw [if_neg (by omega)]
    unfold specDeltaAux
    simp

theorem sampleDelta_length (A : Act α) (net : MLP α) (tr : Trace α)
    (t : α) (l : ℕ) :
    (sampleDelta A net tr t l).length
      = if l < (sizesOf net.H).length - 1 then (sizesOf net.H).getD (l + 1) 0
        else 0 := by
  unfold sampleDelta
  dsimp only
  have hL : (sizesOf net.H).length = net.H.length + 2 := sizesOf_length net.H
  by_cases h : l < (sizesOf net.H).length - 1
  · rw [if_pos h, if_pos h, specDeltaAux_length]
    by_cases h0 : (sizesOf net.H).length - 2 - l = 0
    · rw [if_pos h0]
      have hl : l = net.H.length := by omega
      rw [hl, sizesOf_getD_last]
    · rw [if_neg h0]
      congr 2
      omega
  · rw [if_neg h, if_neg h]
    rfl

theorem vGet_sampleDelta_out (A : Act α) (net : MLP α) (tr : Trace α)
    (t : α) (l j : ℕ)
    (h : ¬(l < (sizesOf net.H).length - 1
      ∧ j < (sizesOf net.H).getD (l + 1) 0)) :
    vGet (sampleDelta A net tr t l) j = 0 := by
  unfold vGet
  apply List.getD_eq_default
  rw [sampleDelta_length]
  by_cases hl : l < (sizesOf net.H).length - 1
  · rw [if_pos hl]
    omega
  · rw [if_neg hl]
    omega

theorem vGet_forward_a_out (A : Act α) (task : Task) (expF : α → α)
    (net : MLP α) (x y : α) (l i : ℕ)
    (h : (sizesOf net.H).getD l 0 ≤ i) :
    vGet ((forward A task expF net x y).a.getD l []) i = 0 := by
  unfold vGet
  apply List.getD_eq_default
  rw [forward_a_getD]
  split
  · rw [aVec_length]
    exact h
  · simp

theorem contribW_out (A : Act α) (task : Task) (expF : α → α)
    (net : MLP α) (p : (α × α) × α) (l i j : ℕ)
    (h : ¬(l < (sizesOf net.H).length - 1 ∧ i < (sizesOf net.H).getD l 0
      ∧ j < (sizesOf net.H).getD (l + 1) 0)) :
    contribW A task expF net p l i j = 0 := by
  unfold contribW sampleTrace
  by_cases hi : i < (sizesOf net.H).getD l 0
  · rw [vGet_sampleDelta_out A net _ _ l j (by tauto), mul_zero]
  · rw [vGet_forward_a_out A task expF net _ _ l i (by omega), zero_mul]

theorem contribB_out (A : Act α) (task : Task) (expF : α → α)
    (net : MLP α) (p : (α × α) × α) (l j : ℕ)
    (h : ¬(l < (sizesOf net.H).length - 1
      ∧ j < (sizesOf net.H).getD (l + 1) 0)) :
    contribB A task expF net p l j = 0 :=
  vGet_sampleDelta_out A net _ _ l j h

theorem tGet_zerosLike3 (W : List (List (List α))) (l i j : ℕ) :
    tGet (zerosLike3 W) l i j = 0 := by
  unfold tGet zerosLike3
  have h1 : (W.map (fun layer => layer.map (fun row =>
      row.map (fun _ => (0 : α))))).getD l []
      = (W.getD l []).map (fun row => row.map (fun _ => (0 : α))) :=
    getD_map_default _ [] [] rfl W l
  rw [h1]
  have h2 : ((W.getD l []).map (fun row =>
      row.map (fun _ => (0 : α)))).getD i []
      = ((W.getD l []).getD i []).map (fun _ => (0 : α)) :=
    getD_map_default _ [] [] rfl _ i
  rw [h2]
  have h3 : (((W.getD l []).getD i []).map (fun _ => (0 : α))).getD j 0
      = (fun _ => (0 : α)) (((W.getD l []).getD i []).getD j 0) :=
    getD_map_default (fun _ : α => (0 : α)) 0 0 rfl _ j
  rw [h3]

theorem mGet_zerosLike2 (B : List (List α)) (l j : ℕ) :
    mGet (zerosLike2 B) l j = 0 := by
  unfold mGet zerosLike2
  have h1 : (B.map (fun arr => arr.map (fun _ => (0 : α)))).getD l []
      = (B.getD l []).map (fun _ => (0 : α)) :=
    getD_map_default _ [] [] rfl B l
  rw [h1]
  have h2 : ((B.getD l []).map (fun _ => (0 : α))).getD j 0
      = (fun _ => (0 : α)) ((B.getD l []).getD j 0) :=
    getD_map_default (fun _ : α => (0 : α)) 0 0 rfl _ j
  rw [h2]

theorem accumSample_gW_get (A : Act α) (task : Task) (expF logF : α → α)
    (net : MLP α) (acc : Grads α) (p : (α × α) × α) (l i j : ℕ) :
    tGet (accumSample A task expF logF net acc p).gW l i j
      = if l < (sizesOf net.H).length - 1 ∧ i < (sizesOf net.H).getD l 0
          ∧ j < (sizesOf net.H).getD (l + 1) 0 then
          tGet acc.gW l i j + contribW A task expF net p l i j
        else 0 := by
  show tGet ((List.range ((sizesOf net.H).length - 1)).map _) l i j = _
  unfold tGet
  rw [getD_range_map]
  by_cases hl : l < (sizesOf net.H).length - 1
  · rw [if_pos hl, getD_range_map]
    by_cases hi : i < (sizesOf net.H).getD l 0
    · rw [if_pos hi, getD_range_map]
      by_cases hj : j < (sizesOf net.H).getD (l + 1) 0
      · rw [if_pos hj, if_pos ⟨hl, hi, hj⟩]
        unfold contribW sampleTrace vGet
        rw [deltasList_getD A task net _ p.2 l]
      · rw [if_neg hj, if_neg (by tauto)]
    · rw [if_neg hi, if_neg (by tauto)]
      simp
  · rw [if_neg hl, if_neg (by tauto)]
    simp

theorem accumSample_gB_get (A : Act α) (task : Task) (expF logF : α → α)
    (net : MLP α) (acc : Grads α) (p : (α × α) × α) (l j : ℕ) :
    mGet (accumSample A task expF logF net acc p).gB l j
      = if l < (sizesOf net.H).length - 1
          ∧ j < (sizesOf net.H).getD (l + 1) 0 then
          mGet acc.gB l j + contribB A task expF net p l j
        else 0 := by
  show mGet ((List.range ((sizesOf net.H).length - 1)).map _) l j = _
  unfold mGet
  rw [getD_range_map]
  by_cases hl : l < (sizesOf net.H).length - 1
  · rw [if_pos hl, getD_range_map]
    by_cases hj : j < (sizesOf net.H).getD (l + 1) 0
    · rw [if_pos hj, if_pos ⟨hl, hj⟩]
      unfold contribB sampleTrace vGet
      rw [deltasList_getD A task net _ p.2 l]
    · rw [if_neg hj, if_neg (by tauto)]
  · rw [if_neg hl, if_neg (by tauto)]
    simp

theorem accumSample_loss (A : Act α) (task : Task) (expF logF : α → α)
    (net : MLP α) (acc : Grads α) (p : (α × α) × α) :
    (accumSample A task expF logF net acc p).loss
      = acc.loss + sampleLoss task logF
          (sampleTrace A task expF net p).yhat p.2 := rfl

theorem accumSample_aligned (A : Act α) (task : Task) (expF logF : α → α)
    (net : MLP α) (acc : Grads α) (p : (α × α) × α) :
    GradsAligned net.H (accumSample A task expF logF net acc p) := by
  constructor
  · intro l i j h
    rw [accumSample_gW_get, if_neg h]
  · intro l j h
    rw [accumSample_gB_get, if_neg h]

theorem accumSample_gW_add (A : Act α) (task : Task) (expF logF : α → α)
    (net : MLP α) (acc : Grads α) (hacc : GradsAligned net.H acc)
    (p : (α × α) × α) (l i j : ℕ) :
    tGet (accumSample A task expF logF net acc p).gW l i j
      = tGet acc.gW l i j + contribW A task expF net p l i j := by
  rw [accumSample_gW_get]
  split
  · rfl
  · rename_i h
    rw [hacc.1 l i j h, contribW_out A task expF net p l i j h, add_zero]

theorem accumSample_gB_add (A : Act α) (task : Task) (expF logF : α → α)
    (net : MLP α) (acc : Grads α) (hacc : GradsAligned net.H acc)
    (p : (α × α) × α) (l j : ℕ) :
    mGet (accumSample A task expF logF net acc p).gB l j
      = mGet acc.gB l j + contribB A task expF net p l j := by
  rw [accumSample_gB_get]
  split
  · rfl
  · rename_i h
    rw [hacc.2 l j h, contribB_out A task expF net p l j h, add_zero]

theorem fold_grads (A : Act α) (task : Task) (expF logF : α → α)
    (net : MLP α) (ps : List ((α × α) × α)) :
    ∀ acc : Grads α, GradsAligned net.H acc →
      (∀ l i j : ℕ,
        tGet (ps.foldl (accumSample A task expF logF net) acc).gW l i j
          = tGet acc.gW l i j
            + (ps.map (fun p => contribW A task expF net p l i j)).sum) ∧
      (∀ l j : ℕ,
        mGet (ps.foldl (accumSample A task expF logF net) acc).gB l j
          = mGet acc.gB l j
            + (ps.map (fun p => contribB A task expF net p l j)).sum) ∧
      (ps.foldl (accumSample A task expF logF net) acc).loss
        = acc.loss + (ps.map (fun p => sampleLoss task logF
            (sampleTrace A task expF net p).yhat p.2)).sum := by
  induction ps with
  | nil => intro acc _; simp
  | cons p ps ih =>
    intro acc hacc
    rw [List.foldl_cons]
    have hstep := ih (accumSample A task expF logF net acc p)
      (accumSample_aligned A task expF logF net acc p)
    refine ⟨fun l i j => ?_, fun l j => ?_, ?_⟩
    · rw [hstep.1 l i j,
        accumSample_gW_add A task expF logF net acc hacc p l i j,
        List.map_cons, List.sum_cons, add_assoc]
    · rw [hstep.2.1 l j,
        accumSample_gB_add A task expF logF net acc hacc p l j,
        List.map_cons, List.sum_cons, add_assoc]
    · rw [hstep.2.2, accumSample_loss, List.map_cons, List.sum_cons, add_assoc]

theorem zeros_aligned (net : MLP α) :
    GradsAligned net.H
      (Grads.mk (zerosLike3 net.W) (zerosLike2 net.B) 0) :=
  ⟨fun l i j _ => tGet_zerosLike3 net.W l i j,
   fun l j _ => mGet_zerosLike2 net.B l j⟩

theorem computeBatchGrads_gW (A : Act α) (task : Task) (expF logF : α → α)
    (net : MLP α) (XY : List (α × α)) (yTrue : List α) (l i j : ℕ) :
    tGet (computeBatchGrads A task expF logF net XY yTrue).gW l i j
      = (((XY.zip yTrue).map
          (fun p => contribW A task expF net p l i j)).sum)
        / (XY.length : α) := by
  unfold computeBatchGrads
  dsimp only
  set G := (XY.zip yTrue).foldl (accumSample A task expF logF net)
    (Grads.mk (zerosLike3 net.W) (zerosLike2 net.B) 0) with hG
  unfold tGet
  have h1 : (G.gW.map (fun layer => layer.map (fun row =>
      row.map (fun v => v / (XY.length : α))))).getD l []
      = (G.gW.getD l []).map (fun row =>
          row.map (fun v => v / (XY.length : α))) :=
    getD_map_default _ [] [] rfl _ l
  rw [h1]
  have h2 : ((G.gW.getD l []).map (fun row =>
      row.map (fun v => v / (XY.length : α)))).getD i []
      = ((G.gW.getD l []).getD i []).map (fun v => v / (XY.length : α)) :=
    getD_map_default _ [] [] rfl _ i
  rw [h2]
  have h3 : (((G.gW.getD l []).getD i []).map
      (fun v => v / (XY.length : α))).getD j 0
      = (((G.gW.getD l []).getD i []).getD j 0) / (XY.length : α) :=
    getD_map_default (fun v : α => v / (XY.length : α)) 0 0 (zero_div _) _ j
  rw [h3]
  have hf := (fold_grads A task expF logF net (XY.zip yTrue) _
    (zeros_aligned net)).1 l i j
  unfold tGet at hf
  rw [hG, hf]
  have hz : (((zerosLike3 net.W).getD l []).getD i []).getD j 0 = (0 : α) :=
    tGet_zerosLike3 net.W l i j
  rw [hz, zero_add]

theorem computeBatchGrads_gB (A : Act α) (task : Task) (expF logF : α → α)
    (net : MLP α) (XY : List (α × α)) (yTrue : List α) (l j : ℕ) :
    mGet (computeBatchGrads A task expF logF net XY yTrue).gB l j
      = (((XY.zip yTrue).map
          (fun p => contribB A task expF net p l j)).sum)
        / (XY.length : α) := by
  unfold computeBatchGrads
  dsimp only
  set G := (XY.zip yTrue).foldl (accumSample A task expF logF net)
    (Grads.mk (zerosLike3 net.W) (zerosLike2 net.B) 0) with hG
  unfold mGet
  have h1 : (G.gB.map (fun arr =>
      arr.map (fun v => v / (XY.length : α)))).getD l []
      = (G.gB.getD l []).map (fun v => v / (XY.length : α)) :=
    getD_map_default _ [] [] rfl _ l
  rw [h1]
  have h2 : ((G.gB.getD l []).map (fun v => v / (XY.length : α))).getD j 0
      = ((G.gB.getD l []).getD j 0) / (XY.length : α) :=
    getD_map_default (fun v : α => v / (XY.length : α)) 0 0 (zero_div _) _ j
  rw [h2]
  have hf := (fold_grads A task expF logF net (XY.zip yTrue) _
    (zeros_aligned net)).2.1 l j
  unfold mGet at hf
  rw [hG, hf]
  have hz : ((zerosLike2 net.B).getD l []).getD j 0 = (0 : α) :=
    mGet_zerosLike2 net.B l j
  rw [hz, zero_add]

theorem computeBatchGrads_loss (A : Act α) (task : Task) (expF logF : α → α)
    (net : MLP α) (XY : List (α × α)) (yTrue : List α) :
    (computeBatchGrads A task expF logF net XY yTrue).loss
      = (((XY.zip yTrue).map (fun p => sampleLoss task logF
          (sampleTrace A task expF net p).yhat p.2)).sum)
        / (XY.length : α) := by
  unfold computeBatchGrads
  dsimp only
  rw [(fold_grads A task expF logF net (XY.zip yTrue) _
    (zeros_aligned net)).2.2]
  norm_num

theorem computeBatchGrads_gW_out (A : Act α) (task : Task)
    (expF logF : α → α) (net : MLP α) (XY : List (α × α)) (yTrue : List α)
    (l i j : ℕ)
    (h : ¬(l < (sizesOf net.H).length - 1 ∧ i < (sizesOf net.H).getD l 0
      ∧ j < (sizesOf net.H).getD (l + 1) 0)) :
    tGet (computeBatchGrads A task expF logF net XY yTrue).gW l i j = 0 := by
  rw [computeBatchGrads_gW]
  rw [List.sum_eq_zero, zero_div]
  intro v hv
  rcases List.mem_map.mp hv with ⟨p, _, hp⟩
  rw [← hp, contribW_out A task expF net p l i j h]

theorem computeBatchGrads_gB_out (A : Act α) (task : Task)
    (expF logF : α → α) (net : MLP α) (XY : List (α × α)) (yTrue : List α)
    (l j : ℕ)
    (h : ¬(l < (sizesOf net.H).length - 1
      ∧ j < (sizesOf net.H).getD (l + 1) 0)) :
    mGet (computeBatchGrads A task expF logF net XY yTrue).gB l j = 0 := by
  rw [computeBatchGrads_gB]
  rw [List.sum_eq_zero, zero_div]
  intro v hv
  rcases List.mem_map.mp hv with ⟨p, _, hp⟩
  rw [← hp, contribB_out A task expF net p l j h]

/-- C1 (confirmed).  For every non-empty batch, `computeBatchGrads`
equals, entry for entry, the spec's batch-averaged formulas: the
per-sample backward recurrence is captured by `sampleDelta` (defined
verbatim from the claim: `delta_out = yhat − target`, and
`delta[l][i] = df(z[l][i]) · Σ_j delta[l+1][j]·W[l+1][i][j]` with `df`
evaluated at the pre-activation); the accumulated quantities
`gW[l][i][j] = Σ_samples a[l][i]·delta[l][j]`,
`gB[l][j] = Σ_samples delta[l][j]` and the total loss are all divided by
the batch size `XY.length`.  The last conjunct records that the code's
output-layer error signal is `[yhat − t]` under both task kinds. -/
theorem C1_computeBatchGrads_spec (A : Act α) (task : Task)
    (expF logF : α → α) (net : MLP α) (XY : List (α × α))
    (yTrue : List α) (hne : XY ≠ []) (hlen : yTrue.length = XY.length) :
    (∀ l i j : ℕ,
      tGet (computeBatchGrads A task expF logF net XY yTrue).gW l i j
        = (((XY.zip yTrue).map
            (fun p => contribW A task expF net p l i j)).sum)
          / (XY.length : α)) ∧
    (∀ l j : ℕ,
      mGet (computeBatchGrads A task expF logF net XY yTrue).gB l j
        = (((XY.zip yTrue).map
            (fun p => contribB A task expF net p l j)).sum)
          / (XY.length : α)) ∧
    ((computeBatchGrads A task expF logF net XY yTrue).loss
      = (((XY.zip yTrue).map (fun p => sampleLoss task logF
          (sampleTrace A task expF net p).yhat p.2)).sum)
        / (XY.length : α)) ∧
    (∀ yhat t : α, deltaOut task yhat t = [yhat - t]) :=
  ⟨computeBatchGrads_gW A task expF logF net XY yTrue,
   computeBatchGrads_gB A task expF logF net XY yTrue,
   computeBatchGrads_loss A task expF logF net XY yTrue,
   fun yhat t => deltaOut_eq task yhat t⟩

theorem rangeMap3_get (f : ℕ → ℕ → ℕ → α) (n1 : ℕ) (n2 : ℕ → ℕ)
    (n3 : ℕ → ℕ → ℕ) (l i j : ℕ) :
    tGet ((List.range n1).map (fun a =>
        (List.range (n2 a)).map (fun b =>
          (List.range (n3 a b)).map (fun c => f a b c)))) l i j
      = if l < n1 ∧ i < n2 l ∧ j < n3 l i then f l i j else 0 := by
  unfold tGet
  rw [getD_range_map]
  by_cases hl : l < n1
  · rw [if_pos hl, getD_range_map]
    by_cases hi : i < n2 l
    · rw [if_pos hi, getD_range_map]
      by_cases hj : j < n3 l i
      · rw [if_pos hj, if_pos ⟨hl, hi, hj⟩]
      · rw [if_neg hj, if_neg (by tauto)]
    · rw [if_neg hi, if_neg (by tauto)]
      simp
  · rw [if_neg hl, if_neg (by tauto)]
    simp

theorem rangeMap2_get (f : ℕ → ℕ → α) (n1 : ℕ) (n2 : ℕ → ℕ) (l j : ℕ) :
    mGet ((List.range n1).map (fun a =>
        (List.range (n2 a)).map (fun b => f a b))) l j
      = if l < n1 ∧ j < n2 l then f l j else 0 := by
  unfold mGet
  rw [getD_range_map]
  by_cases hl : l < n1
  · rw [if_pos hl, getD_range_map]
    by_cases hj : j < n2 l
    · rw [if_pos hj, if_pos ⟨hl, hj⟩]
    · rw [if_neg hj, if_neg (by tauto)]
  · rw [if_neg hl, if_neg (by tauto)]
    simp

theorem tGet_out_self (W : List (List (List α))) (l i j : ℕ)
    (h : ¬(l < W.length ∧ i < (W.getD l []).length
      ∧ j < ((W.getD l []).getD i []).length)) :
    tGet W l i j = 0 := by
  unfold tGet
  by_cases h1 : l < W.length
  · by_cases h2 : i < (W.getD l []).length
    · exact List.getD_eq_default ((W.getD l []).getD i []) 0 (by omega)
    · rw [List.getD_eq_default (W.getD l []) [] (by omega)]
      simp
  · rw [List.getD_eq_default W [] (by omega)]
    simp

theorem mGet_out_self (B : List (List α)) (l j : ℕ)
    (h : ¬(l < B.length ∧ j < (B.getD l []).length)) :
    mGet B l j = 0 := by
  unfold mGet
  by_cases h1 : l < B.length
  · exact List.getD_eq_default (B.getD l []) 0 (by omega)
  · rw [List.getD_eq_default B [] (by omega)]
    simp

theorem stepFn_W_get (A : Act α) (task : Task) (expF logF : α → α)
    (net : MLP α) (XY : List (α × α)) (yTrue : List α) (lr : α)
    (h : WellShaped net) (l i j : ℕ) :
    tGet (stepFn A task expF logF net XY yTrue lr).1.W l i j
      = tGet net.W l i j
        - lr * tGet (computeBatchGrads A task expF logF net XY yTrue).gW l i j := by
  have hL := wellShaped_w_length h
  have hLen := sizesOf_length net.H
  unfold stepFn
  dsimp only
  rw [rangeMap3_get]
  split
  · rfl
  · rename_i hin
    have hW0 : tGet net.W l i j = 0 := tGet_out_self net.W l i j hin
    have hG0 : tGet (computeBatchGrads A task expF logF net XY yTrue).gW l i j
        = 0 := by
      apply computeBatchGrads_gW_out
      intro hsz
      apply hin
      refine ⟨by omega, ?_, ?_⟩
      · rw [wellShaped_row_length h, if_pos (by omega)]
        omega
      · rw [wellShaped_entry_length h, if_pos ?_]
        · omega
        · constructor
          · omega
          · rw [wellShaped_row_length h, if_pos (by omega)] at *
            omega
    rw [hW0, hG0, mul_zero, sub_zero]

theorem stepFn_B_get (A : Act α) (task : Task) (expF logF : α → α)
    (net : MLP α) (XY : List (α × α)) (yTrue : List α) (lr : α)
    (h : WellShaped net) (l j : ℕ) :
    mGet (stepFn A task expF logF net XY yTrue lr).1.B l j
      = mGet net.B l j
        - lr * mGet (computeBatchGrads A task expF logF net XY yTrue).gB l j := by
  have hL := wellShaped_b_length h
  have hLen := sizesOf_length net.H
  unfold stepFn
  dsimp only
  rw [rangeMap2_get]
  split
  · rfl
  · rename_i hin
    have hB0 : mGet net.B l j = 0 := mGet_out_self net.B l j hin
    have hG0 : mGet (computeBatchGrads A task expF logF net XY yTrue).gB l j
        = 0 := by
      apply computeBatchGrads_gB_out
      intro hsz
      apply hin
      refine ⟨by omega, ?_⟩
      rw [wellShaped_b_entry_length h, if_pos (by omega)]
      omega
    rw [hB0, hG0, mul_zero, sub_zero]

/-- C3 (confirmed).  `step` first invokes `computeBatchGrads` at the
current (pre-update) parameters, then replaces every weight by
`W[l][i][j] − lr·gW[l][i][j]` and every bias by `B[l][j] − lr·gB[l][j]`,
and returns exactly the batch-averaged loss that `computeBatchGrads`
computed. -/
theorem C3_step_spec (A : Act α) (task : Task) (expF logF : α → α)
    (net : MLP α) (XY : List (α × α)) (yTrue : List α) (lr : α)
    (h : WellShaped net) :
    ((stepFn A task expF logF net XY yTrue lr).2
      = (computeBatchGrads A task expF logF net XY yTrue).loss) ∧
    (∀ l i j : ℕ,
      tGet (stepFn A task expF logF net XY yTrue lr).1.W l i j
        = tGet net.W l i j
          - lr * tGet (computeBatchGrads A task expF logF net XY yTrue).gW l i j) ∧
    (∀ l j : ℕ,
      mGet (stepFn A task expF logF net XY yTrue lr).1.B l j
        = mGet net.B l j
          - lr * mGet (computeBatchGrads A task expF logF net XY yTrue).gB l j) :=
  ⟨rfl, stepFn_W_get A task expF logF net XY yTrue lr h,
    stepFn_B_get A task expF logF net XY yTrue lr h⟩

end Engine

/-- Witness for `C1_computeBatchGrads_spec`: the hypotheses hold for the
one-point batch `[(1, 0)]` with target list `[1]`, and the theorem then
gives the averaged-gradient equation at the output weight. -/
theorem C1_computeBatchGrads_spec_witness :
    (([((1 : ℚ), 0)] : List (ℚ × ℚ)) ≠ []) ∧
      (([1] : List ℚ).length = ([((1 : ℚ), 0)] : List (ℚ × ℚ)).length) ∧
      tGet (computeBatchGrads reluAct Task.regression id id exNetQ
          [(1, 0)] [1]).gW 0 0 0
        = ((([((1 : ℚ), 0)].zip [1]).map
            (fun p => contribW reluAct Task.regression id exNetQ p 0 0 0)).sum)
          / (([((1 : ℚ), 0)] : List (ℚ × ℚ)).length : ℚ) :=
  ⟨List.cons_ne_nil _ _, rfl,
    (C1_computeBatchGrads_spec reluAct Task.regression id id exNetQ
      [(1, 0)] [1] (List.cons_ne_nil _ _) rfl).1 0 0 0⟩

/-- Witness for `C3_step_spec`: the concrete `ℚ` network is well-shaped,
and the theorem gives the loss pass-through and the output-weight update
equation for the one-point batch. -/
theorem C3_step_spec_witness :
    WellShaped exNetQ ∧
      ((stepFn reluAct Task.regression id id exNetQ [(1, 0)] [1] (1 / 10)).2
        = (computeBatchGrads reluAct Task.regression id id exNetQ
            [(1, 0)] [1]).loss ∧
       tGet (stepFn reluAct Task.regression id id exNetQ
          [(1, 0)] [1] (1 / 10)).1.W 0 0 0
        = tGet exNetQ.W 0 0 0
          - (1 / 10) * tGet (computeBatchGrads reluAct Task.regression id id
              exNetQ [(1, 0)] [1]).gW 0 0 0) := by
  have h : WellShaped exNetQ := by decide
  exact ⟨h, (C3_step_spec reluAct Task.regression id id exNetQ
      [(1, 0)] [1] (1 / 10) h).1,
    (C3_step_spec reluAct Task.regression id id exNetQ
      [(1, 0)] [1] (1 / 10) h).2.1 0 0 0⟩

section Shapes

variable {α : Type*} [LinearOrderedField α]

theorem map_eq_range_map {β γ : Type*} (f : β → γ) (d : β) (X : List β) :
    X.map f = (List.range X.length).map (fun i => f (X.getD i d)) := by
  induction X with
  | nil => rfl
  | cons b X ih =>
    rw [List.length_cons, List.range_succ_eq_map, List.map_cons,
      List.map_cons, List.map_map]
    refine congrArg₂ List.cons rfl ?_
    rw [ih]
    apply List.map_congr_left
    intro m _
    simp [Function.comp]

/-- C6 (confirmed).  `initWeights`/`initBiases` allocate exactly the
shapes `sizes[l] × sizes[l+1]` and `sizes[l+1]` demanded by the layer
sizes `[2, h1, …, hk, 1]`, `computeBatchGrads` reads but never writes the
parameters (it is a pure function of the net in this embedding), and the
`step` update maps every entry in place, so both the weight and the bias
shape descriptors — and the layer-size list itself — are preserved by
every step. -/
theorem C6_shape_invariant (H : List ℕ) (sqrtF : α → α)
    (g : ℕ → ℕ → ℕ → α) (g2 : ℕ → ℕ → α) (A : Act α) (task : Task)
    (expF logF : α → α) (net : MLP α) (XY : List (α × α))
    (yTrue : List α) (lr : α) :
    wShape (initWeights H sqrtF g) = expectedW H ∧
    bShape (initBiases H g2) = expectedB H ∧
    (stepFn A task expF logF net XY yTrue lr).1.H = net.H ∧
    wShape (stepFn A task expF logF net XY yTrue lr).1.W = wShape net.W ∧
    bShape (stepFn A task expF logF net XY yTrue lr).1.B = bShape net.B := by
  refine ⟨?_, ?_, rfl, ?_, ?_⟩
  · unfold initWeights wShape expectedW
    dsimp only
    rw [List.map_map]
    apply List.map_congr_left
    intro l _
    simp only [Function.comp_apply, List.map_map]
    apply List.eq_replicate.mpr
    constructor
    · simp
    · intro b hb
      rcases List.mem_map.mp hb with ⟨i, _, hi⟩
      simpa using hi.symm
  · unfold initBiases bShape expectedB
    dsimp only
    rw [List.map_map]
    apply List.map_congr_left
    intro l _
    simp [Function.comp]
  · show wShape ((List.range net.W.length).map _) = _
    unfold wShape
    rw [List.map_map]
    conv_rhs => rw [map_eq_range_map (fun m => m.map List.length) [] net.W]
    apply List.map_congr_left
    intro l _
    simp only [Function.comp_apply, List.map_map]
    conv_rhs => rw [map_eq_range_map List.length [] (net.W.getD l [])]
    apply List.map_congr_left
    intro i _
    simp
  · show bShape ((List.range net.B.length).map _) = _
    unfold bShape
    rw [List.map_map]
    conv_rhs => rw [map_eq_range_map List.length [] net.B]
    apply List.map_congr_left
    intro l _
    simp [Function.comp]

end Shapes

/-- C4 (code bug).  The source contains no `EmptyBatch` guard at all:
`computeBatchGrads([], [])` runs the sample loop zero times and then
divides the zero accumulators and the zero loss by `n = XY.length = 0`
(line 326), and `step([], [], lr)` forwards that result.  In this exact
embedding division by zero yields `0`; in JavaScript `0/0` is `NaN`,
which `step` then writes into every parameter.  Either way no failure is
raised and no guard runs before the accumulation: the call returns
normally with the `0/0` loss shown here. -/
theorem C4_empty_batch_no_guard :
    ((computeBatchGrads reluAct Task.regression id id exNetQ [] []).loss
      = (0 : ℚ) / ((List.length ([] : List (ℚ × ℚ))) : ℚ)) ∧
    (tGet (computeBatchGrads reluAct Task.regression id id exNetQ
        [] []).gW 0 0 0
      = (0 : ℚ) / ((List.length ([] : List (ℚ × ℚ))) : ℚ)) ∧
    ((stepFn reluAct Task.regression id id exNetQ [] [] (1 / 10)).2
      = (0 : ℚ) / ((List.length ([] : List (ℚ × ℚ))) : ℚ)) := by
  refine ⟨rfl, ?_, rfl⟩
  rw [computeBatchGrads_gW]
  simp

/-- C5 (code bug).  `initWeights`/`initBiases` perform no validation: for
the invalid hidden-layer list `[0]` (layer sizes `[2, 0, 1]`, a width-0
layer) they allocate and return a parameter set — two empty rows for
layer 0, an empty matrix for layer 1, and an empty bias vector next to a
singleton one — and no `InvalidArchitecture` failure exists anywhere in
the code. -/
theorem C5_no_architecture_guard :
    (initWeights (α := ℚ) [0] id (fun _ _ _ => 0) = [[[], []], []]) ∧
    (initBiases (α := ℚ) [0] (fun _ _ => 0) = [[], [0]]) := by
  constructor
  · rfl
  · unfold initBiases
    dsimp only
    rw [show (sizesOf [0]).length - 1 = 2 from rfl,
      show List.range 2 = [0, 1] from rfl]
    norm_num [sizesOf]

/-! ### C2: forward propagation and the spec's worked example -/

theorem exNetR_z0 :
    (forward tanhAct Task.regression Real.exp exNetR 1 0).z.getD 0 []
      = [(1 : ℝ), -1] := by
  rw [forward_z_getD, if_pos (by norm_num [exNetR])]
  norm_num [zVec, zLayer, aVec, sizesOf, tGet, mGet, exNetR,
    List.range_succ]

theorem exNetR_a1 :
    (forward tanhAct Task.regression Real.exp exNetR 1 0).a.getD 1 []
      = [Real.tanh 1, Real.tanh (-1)] := by
  rw [forward_a_getD, if_pos (by norm_num [exNetR])]
  norm_num [aVec, zLayer, sizesOf, tGet, mGet, exNetR, tanhAct,
    List.range_succ]

theorem exNetR_yhat :
    (forward tanhAct Task.regression Real.exp exNetR 1 0).yhat
      = Real.tanh 1 + Real.tanh (-1) := by
  rw [forward_yhat_eq]
  show vGet (aVec tanhAct Task.regression Real.exp exNetR 1 0 2) 0 = _
  norm_num [aVec, zLayer, outSquash, sizesOf, tGet, mGet, vGet, exNetR,
    tanhAct, List.range_succ]

/-- C2 counterexample: with the spec's own convention
`z[l][j] = B[l][j] + Σ_i a[l][i]·W[l][i][j]` (first index = source
neuron), the worked example's first hidden pre-activation vector is
`[1, −1]`, not `[1, 0.5]` as the claim states, and the returned output is
`tanh 1 + tanh(−1) = 0`, not `tanh 1 + tanh 0.5 > 0`: the claim's
expected values use the transposed weight layout. -/
theorem C2_counterexample :
    ((forward tanhAct Task.regression Real.exp exNetR 1 0).z.getD 0 []
      ≠ [(1 : ℝ), 0.5]) ∧
    ((forward tanhAct Task.regression Real.exp exNetR 1 0).yhat
      ≠ Real.tanh 1 + Real.tanh 0.5) := by
  constructor
  · rw [exNetR_z0]
    intro hc
    have h2 := List.tail_eq_of_cons_eq hc
    have h3 := List.head_eq_of_cons_eq h2
    norm_num at h3
  · rw [exNetR_yhat, Real.tanh_neg]
    intro hc
    have h05 : 0 < Real.tanh 0.5 := by
      rw [Real.tanh_eq_sinh_div_cosh]
      exact div_pos (Real.sinh_pos_iff.mpr (by norm_num)) (Real.cosh_pos _)
    have h1 : 0 < Real.tanh 1 := by
      rw [Real.tanh_eq_sinh_div_cosh]
      exact div_pos (Real.sinh_pos_iff.mpr (by norm_num)) (Real.cosh_pos _)
    linarith

/-- C2 (corrected).  For every input, `forward` computes layer by layer
`z[l][j] = B[l][j] + Σ_i a[l][i]·W[l][i][j]`, applies the selected hidden
activation elementwise to every layer except the last, applies the
task-dependent squashing at the last layer — explicitly, the logistic
sigmoid `v ↦ 1/(1 + exp(−v))` when the task is classification and the
identity when it is regression (conjuncts 5–6) — and returns
`yhat = a[L−1][0]`.  The worked example, however, evaluates under the
row-major convention the formula itself dictates to hidden
pre-activations `z0 = [1, −1]`, hidden activations `[tanh 1, tanh(−1)]`,
and `yhat = tanh 1 + tanh(−1) = 0` — not `z0 = [1, 0.5]` with
`yhat = tanh 1 + tanh 0.5` as claimed. -/
theorem C2_forward_spec (A : Act ℝ) (task : Task) (expF : ℝ → ℝ)
    (net : MLP ℝ) (x y : ℝ) (h : WellShaped net) :
    (((forward A task expF net x y).a.getD 0 [] = [x, y]) ∧
     (∀ l j : ℕ,
       vGet ((forward A task expF net x y).z.getD l []) j
         = mGet net.B l j
           + Finset.sum (Finset.range ((sizesOf net.H).getD l 0)) (fun i =>
               vGet ((forward A task expF net x y).a.getD l []) i
                 * tGet net.W l i j)) ∧
     (∀ l : ℕ,
       (forward A task expF net x y).a.getD (l + 1) []
         = if l = net.H.length then
             ((forward A task expF net x y).z.getD l []).map
               (outSquash task expF)
           else ((forward A task expF net x y).z.getD l []).map A.f) ∧
     ((forward A task expF net x y).yhat
       = vGet ((forward A task expF net x y).a.getD (net.H.length + 1) []) 0) ∧
     (task = Task.classification →
       (forward A task expF net x y).a.getD (net.H.length + 1) []
         = ((forward A task expF net x y).z.getD net.H.length []).map
             (fun v => 1 / (1 + expF (-v)))) ∧
     (task = Task.regression →
       (forward A task expF net x y).a.getD (net.H.length + 1) []
         = (forward A task expF net x y).z.getD net.H.length [])) ∧
    ((forward tanhAct Task.regression Real.exp exNetR 1 0).z.getD 0 []
        = [(1 : ℝ), -1] ∧
     (forward tanhAct Task.regression Real.exp exNetR 1 0).a.getD 1 []
        = [Real.tanh 1, Real.tanh (-1)] ∧
     (forward tanhAct Task.regression Real.exp exNetR 1 0).yhat
        = Real.tanh 1 + Real.tanh (-1) ∧
     (forward tanhAct Task.regression Real.exp exNetR 1 0).yhat = 0) := by
  refine ⟨⟨?_, ?_, ?_, ?_, ?_, ?_⟩, exNetR_z0, exNetR_a1, exNetR_yhat, ?_⟩
  · rw [forward_a_getD, if_pos (by omega)]
    rfl
  · intro l j
    rw [forward_z_getD]
    by_cases hl : l < net.H.length + 1
    · rw [if_pos hl]
      unfold zVec zLayer vGet
      rw [getD_range_map]
      by_cases hj : j < (sizesOf net.H).getD (l + 1) 0
      · rw [if_pos hj, foldl_add_finset]
        congr 1
        apply Finset.sum_congr rfl
        intro i _
        rw [forward_a_getD, if_pos (by omega)]
      · rw [if_neg hj]
        rw [mGet_out h l j (Or.inl (by omega)),
          Finset.sum_eq_zero (fun i _ => by
            rw [tGet_out_col h l i j (by omega), mul_zero]),
          add_zero]
    · rw [if_neg hl]
      rw [mGet_out h l j (Or.inr (by omega)),
        Finset.sum_eq_zero (fun i _ => by
          rw [tGet_out_layer h l i j (by omega), mul_zero]),
        add_zero]
      simp [vGet]
  · intro l
    by_cases he : l = net.H.length
    · subst he
      rw [if_pos rfl, forward_a_getD, if_pos (by omega),
        forward_z_getD, if_pos (by omega)]
      rw [show aVec A task expF net x y (net.H.length + 1)
          = if net.H.length = (sizesOf net.H).length - 2 then
              (zLayer net (aVec A task expF net x y net.H.length)
                net.H.length).map (outSquash task expF)
            else (zLayer net (aVec A task expF net x y net.H.length)
              net.H.length).map A.f from rfl]
      rw [if_pos (by rw [sizesOf_length]; omega)]
      rfl
    · rw [if_neg he, forward_a_getD, forward_z_getD]
      by_cases hl : l + 1 < net.H.length + 2
      · rw [if_pos hl, if_pos (by omega)]
        rw [show aVec A task expF net x y (l + 1)
            = if l = (sizesOf net.H).length - 2 then
                (zLayer net (aVec A task expF net x y l) l).map
                  (outSquash task expF)
              else (zLayer net (aVec A task expF net x y l) l).map A.f
            from rfl]
        rw [if_neg (by rw [sizesOf_length]; omega)]
        rfl
      · rw [if_neg hl, if_neg (by omega)]
        simp
  · rw [forward_yhat_eq, forward_a_getD, if_pos (by omega)]
  · intro ht
    subst ht
    rw [forward_a_getD, if_pos (by omega), forward_z_getD,
      if_pos (by omega)]
    rw [show aVec A Task.classification expF net x y (net.H.length + 1)
        = if net.H.length = (sizesOf net.H).length - 2 then
            (zLayer net (aVec A Task.classification expF net x y
              net.H.length) net.H.length).map
              (outSquash Task.classification expF)
          else (zLayer net (aVec A Task.classification expF net x y
            net.H.length) net.H.length).map A.f from rfl]
    rw [if_pos (by rw [sizesOf_length]; omega)]
    rfl
  · intro ht
    subst ht
    rw [forward_a_getD, if_pos (by omega), forward_z_getD,
      if_pos (by omega)]
    rw [show aVec A Task.regression expF net x y (net.H.length + 1)
        = if net.H.length = (sizesOf net.H).length - 2 then
            (zLayer net (aVec A Task.regression expF net x y
              net.H.length) net.H.length).map
              (outSquash Task.regression expF)
          else (zLayer net (aVec A Task.regression expF net x y
            net.H.length) net.H.length).map A.f from rfl]
    rw [if_pos (by rw [sizesOf_length]; omega),
      show outSquash Task.regression expF = fun v : ℝ => v from rfl]
    simp [zVec]
  · rw [exNetR_yhat, Real.tanh_neg]
    ring

/-- Witness for `C2_forward_spec`: the worked-example network is
well-shaped, and the theorem then gives, e.g., the first-layer
pre-activation equation at `j = 0` for input `(1, 0)`. -/
theorem C2_forward_spec_witness :
    WellShaped exNetR ∧
      vGet ((forward tanhAct Task.regression Real.exp exNetR 1 0).z.getD 0 []) 0
        = mGet exNetR.B 0 0
          + Finset.sum (Finset.range ((sizesOf exNetR.H).getD 0 0)) (fun i =>
              vGet ((forward tanhAct Task.regression Real.exp
                exNetR 1 0).a.getD 0 []) i * tGet exNetR.W 0 i 0) := by
  have h : WellShaped exNetR := by decide
  exact ⟨h, (C2_forward_spec tanhAct Task.regression Real.exp
    exNetR 1 0 h).1.2.1 0 0⟩

/-! ### C10: the gradients differentiate the ε-free loss, the returned
loss carries the ε offsets -/

section GradCalc

variable {α : Type*} [LinearOrderedField α]

theorem getD_set_self {β : Type*} (X : List β) (n : ℕ) (a d : β)
    (h : n < X.length) : (X.set n a).getD n d = a := by
  rw [List.getD_eq_getElem?_getD, List.getElem?_set]
  simp [h]

theorem getD_set_ne {β : Type*} (X : List β) (n m : ℕ) (a d : β)
    (h : n ≠ m) : (X.set n a).getD m d = X.getD m d := by
  rw [List.getD_eq_getElem?_getD, List.getElem?_set, if_neg h,
    ← List.getD_eq_getElem?_getD]

theorem set_getD_self {β : Type*} (X : List β) (n : ℕ) (d : β) :
    X.set n (X.getD n d) = X := by
  induction X generalizing n with
  | nil => rfl
  | cons b X ih =>
    cases n with
    | zero => rfl
    | succ n =>
      show b :: X.set n ((b :: X).getD (n + 1) d) = b :: X
      rw [List.getD_cons_succ, ih]

theorem getD_map_lt {β γ : Type*} (f : β → γ) (X : List β) (i : ℕ)
    (d : β) (e : γ) (h : i < X.length) :
    (X.map f).getD i e = f (X.getD i d) := by
  rw [List.getD_eq_getElem?_getD, List.getElem?_map,
    List.getElem?_eq_getElem h]
  simp [List.getD_eq_getElem?_getD, List.getElem?_eq_getElem h]

/-- Replacing `W[l][i][j]` by its present value is the identity. -/
theorem setW_self (net : MLP α) (l i j : ℕ) :
    setW net l i j (tGet net.W l i j) = net := by
  unfold setW tGet
  rw [set_getD_self, set_getD_self, set_getD_self]

/-- Replacing `B[l][j]` by its present value is the identity. -/
theorem setB_self (net : MLP α) (l j : ℕ) :
    setB net l j (mGet net.B l j) = net := by
  unfold setB mGet
  rw [set_getD_self, set_getD_self]

theorem setW_W_getD_ne (net : MLP α) (l0 i0 j0 : ℕ) (w : α) (m : ℕ)
    (h : m ≠ l0) : (setW net l0 i0 j0 w).W.getD m [] = net.W.getD m [] :=
  getD_set_ne _ _ _ _ _ (Ne.symm h)

theorem setB_B_getD_ne (net : MLP α) (l0 j0 : ℕ) (b : α) (m : ℕ)
    (h : m ≠ l0) : (setB net l0 j0 b).B.getD m [] = net.B.getD m [] :=
  getD_set_ne _ _ _ _ _ (Ne.symm h)

/-- Reading layer `l0` of the weights after `setW` replaced entry
`(l0, i0, j0)` (in range): the replaced entry reads back the new value,
every other entry is unchanged. -/
theorem tGet_setW (net : MLP α) (l0 i0 j0 : ℕ) (w : α)
    (hl : l0 < net.W.length) (hi : i0 < (net.W.getD l0 []).length)
    (hj : j0 < ((net.W.getD l0 []).getD i0 []).length) (i j : ℕ) :
    tGet (setW net l0 i0 j0 w).W l0 i j
      = if i = i0 ∧ j = j0 then w else tGet net.W l0 i j := by
  unfold setW tGet
  dsimp only
  rw [getD_set_self _ _ _ _ hl]
  by_cases h2 : i = i0
  · subst h2
    rw [getD_set_self _ _ _ _ hi]
    by_cases h3 : j = j0
    · subst h3
      rw [getD_set_self _ _ _ _ hj, if_pos ⟨rfl, rfl⟩]
    · rw [getD_set_ne _ _ _ _ _ (Ne.symm h3), if_neg (by tauto)]
  · rw [getD_set_ne _ _ _ _ _ (Ne.symm h2), if_neg (by tauto)]

theorem tGet_setW_ne (net : MLP α) (l0 i0 j0 : ℕ) (w : α) (l : ℕ)
    (h : l ≠ l0) (i j : ℕ) :
    tGet (setW net l0 i0 j0 w).W l i j = tGet net.W l i j := by
  unfold tGet
  rw [setW_W_getD_ne net l0 i0 j0 w l h]

/-- Reading layer `l0` of the biases after `setB` replaced entry
`(l0, j0)` (in range). -/
theorem mGet_setB (net : MLP α) (l0 j0 : ℕ) (b : α)
    (hl : l0 < net.B.length) (hj : j0 < (net.B.getD l0 []).length) (j : ℕ) :
    mGet (setB net l0 j0 b).B l0 j = if j = j0 then b else mGet net.B l0 j := by
  unfold setB mGet
  dsimp only
  rw [getD_set_self _ _ _ _ hl]
  by_cases h2 : j = j0
  · subst h2
    rw [getD_set_self _ _ _ _ hj, if_pos rfl]
  · rw [getD_set_ne _ _ _ _ _ (Ne.symm h2), if_neg h2]

theorem mGet_setB_ne (net : MLP α) (l0 j0 : ℕ) (b : α) (l : ℕ)
    (h : l ≠ l0) (j : ℕ) :
    mGet (setB net l0 j0 b).B l j = mGet net.B l j := by
  unfold mGet
  rw [setB_B_getD_ne net l0 j0 b l h]

/-- Pointwise reading of a pre-activation vector: inside the layer width
it is the bias plus the weighted sum of the previous activations. -/
theorem zVec_get (A : Act α) (task : Task) (expF : α → α) (net : MLP α)
    (x y : α) (l j : ℕ) :
    vGet (zVec A task expF net x y l) j
      = if j < (sizesOf net.H).getD (l + 1) 0 then
          mGet net.B l j
            + Finset.sum (Finset.range ((sizesOf net.H).getD l 0)) (fun i =>
                vGet (aVec A task expF net x y l) i * tGet net.W l i j)
        else 0 := by
  unfold zVec zLayer vGet
  rw [getD_range_map]
  split
  · rw [foldl_add_finset]
  · rfl

/-- Below the output layer, `a[l+1][i] = f(z[l][i])` inside the layer
width. -/
theorem aVec_get_hidden (A : Act α) (task : Task) (expF : α → α)
    (net : MLP α) (x y : α) (l i : ℕ) (hl : l ≠ net.H.length)
    (hi : i < (sizesOf net.H).getD (l + 1) 0) :
    vGet (aVec A task expF net x y (l + 1)) i
      = A.f (vGet (zVec A task expF net x y l) i) := by
  have h1 : aVec A task expF net x y (l + 1)
      = (zLayer net (aVec A task expF net x y l) l).map A.f := by
    rw [show aVec A task expF net x y (l + 1)
        = if l = (sizesOf net.H).length - 2 then
            (zLayer net (aVec A task expF net x y l) l).map
              (outSquash task expF)
          else (zLayer net (aVec A task expF net x y l) l).map A.f
        from rfl]
    rw [if_neg (by rw [sizesOf_length]; omega)]
  rw [h1]
  unfold vGet
  rw [getD_map_lt A.f _ i 0 0 (by simpa [zLayer] using hi)]
  rfl

/-- Two nets with equal depth lists and equal parameters at layer `l`
compute the same `zLayer` there. -/
theorem zLayer_congr (nu net : MLP α) (al : List α) (l : ℕ)
    (hH : nu.H = net.H) (hW : nu.W.getD l [] = net.W.getD l [])
    (hB : nu.B.getD l [] = net.B.getD l []) :
    zLayer nu al l = zLayer net al l := by
  unfold zLayer
  dsimp only
  rw [hH]
  apply List.map_congr_left
  intro j _
  have hf : (fun (s : α) (i : ℕ) => s + al.getD i 0 * tGet nu.W l i j)
      = fun (s : α) (i : ℕ) => s + al.getD i 0 * tGet net.W l i j := by
    funext s i
    unfold tGet
    rw [hW]
  rw [hf]
  unfold mGet
  rw [hB]

/-- The activations up to layer `l0` depend only on the parameters of
the layers below `l0`. -/
theorem aVec_congr_below (A : Act α) (task : Task) (expF : α → α)
    (nu net : MLP α) (x y : α) (l0 : ℕ) (hH : nu.H = net.H)
    (hW : ∀ m, m < l0 → nu.W.getD m [] = net.W.getD m [])
    (hB : ∀ m, m < l0 → nu.B.getD m [] = net.B.getD m []) :
    ∀ l, l ≤ l0 →
      aVec A task expF nu x y l = aVec A task expF net x y l := by
  intro l
  induction l with
  | zero => intro hle; rfl
  | succ l ih =>
    intro hle
    have h1 : aVec A task expF nu x y (l + 1)
        = if l = (sizesOf nu.H).length - 2 then
            (zLayer nu (aVec A task expF nu x y l) l).map
              (outSquash task expF)
          else (zLayer nu (aVec A task expF nu x y l) l).map A.f := rfl
    have h2 : aVec A task expF net x y (l + 1)
        = if l = (sizesOf net.H).length - 2 then
            (zLayer net (aVec A task expF net x y l) l).map
              (outSquash task expF)
          else (zLayer net (aVec A task expF net x y l) l).map A.f := rfl
    rw [h1, h2, ih (by omega), hH,
      zLayer_congr nu net (aVec A task expF net x y l) l hH
        (hW l (by omega)) (hB l (by omega))]

/-- The stored activations of a sample trace, read per layer. -/
theorem sampleTrace_a_getD (A : Act α) (task : Task) (expF : α → α)
    (net : MLP α) (p : (α × α) × α) (l : ℕ) :
    (sampleTrace A task expF net p).a.getD l []
      = if l < net.H.length + 2 then
          aVec A task expF net p.1.1 p.1.2 l
        else [] :=
  forward_a_getD A task expF net p.1.1 p.1.2 l

/-- The spec recurrence, read pointwise: below the output layer,
`delta[m][i] = df(z[m][i]) · Σ_j delta[m+1][j]·W[m+1][i][j]`. -/
theorem sampleDelta_rec (A : Act α) (net : MLP α) (tr : Trace α) (t : α)
    (m i : ℕ) (hm : m + 1 ≤ net.H.length)
    (hi : i < (sizesOf net.H).getD (m + 1) 0) :
    vGet (sampleDelta A net tr t m) i
      = A.df ((tr.z.getD m []).getD i 0)
        * Finset.sum (Finset.range ((sizesOf net.H).getD (m + 1 + 1) 0))
            (fun j => vGet (sampleDelta A net tr t (m + 1)) j
              * tGet net.W (m + 1) i j) := by
  have hL := sizesOf_length net.H
  unfold sampleDelta
  dsimp only
  rw [if_pos (by omega), if_pos (by omega),
    show (sizesOf net.H).length - 2 - m
      = ((sizesOf net.H).length - 2 - (m + 1)) + 1 by omega]
  conv_lhs => rw [specDeltaAux]
  rw [show (sizesOf net.H).length - 3
      - ((sizesOf net.H).length - 2 - (m + 1)) = m by omega]
  unfold vGet
  rw [getD_range_map, if_pos hi]

/-- The spec delta at the output layer is `[yhat − t]`. -/
theorem sampleDelta_output (A : Act α) (net : MLP α) (tr : Trace α)
    (t : α) :
    sampleDelta A net tr t net.H.length = [tr.yhat - t] := by
  unfold sampleDelta
  dsimp only
  rw [if_pos (by rw [sizesOf_length]; omega),
    show (sizesOf net.H).length - 2 - net.H.length = 0 by
      rw [sizesOf_length]; omega]
  rfl

/-- Adjoint invariance: pairing the delta vector of layer `l0 + d`
against the forward tangent `dzAux … d` is independent of `d` — it
always equals the pairing of the layer-`l0` delta against the seed
tangent `s`. -/
theorem delta_dz_invariant (A : Act α) (net : MLP α) (tr : Trace α)
    (t : α) (l0 : ℕ) (s : ℕ → α) :
    ∀ d, l0 + d ≤ net.H.length →
      Finset.sum (Finset.range ((sizesOf net.H).getD (l0 + d + 1) 0))
        (fun j => vGet (sampleDelta A net tr t (l0 + d)) j
          * dzAux A net tr l0 s d j)
      = Finset.sum (Finset.range ((sizesOf net.H).getD (l0 + 1) 0))
          (fun j => vGet (sampleDelta A net tr t l0) j * s j) := by
  intro d
  induction d with
  | zero => intro hle; rfl
  | succ d ih =>
    intro hd
    have hd' : l0 + d ≤ net.H.length := by omega
    rw [← ih hd']
    rw [show l0 + (d + 1) = l0 + d + 1 from rfl]
    have hdz : ∀ j : ℕ, dzAux A net tr l0 s (d + 1) j
        = Finset.sum (Finset.range ((sizesOf net.H).getD (l0 + d + 1) 0))
            (fun i => A.df ((tr.z.getD (l0 + d) []).getD i 0)
              * dzAux A net tr l0 s d i * tGet net.W (l0 + d + 1) i j) :=
      fun j => rfl
    have h1 : Finset.sum
          (Finset.range ((sizesOf net.H).getD (l0 + d + 1 + 1) 0))
          (fun j => vGet (sampleDelta A net tr t (l0 + d + 1)) j
            * dzAux A net tr l0 s (d + 1) j)
        = Finset.sum
            (Finset.range ((sizesOf net.H).getD (l0 + d + 1 + 1) 0))
            (fun j => Finset.sum
              (Finset.range ((sizesOf net.H).getD (l0 + d + 1) 0))
              (fun i => vGet (sampleDelta A net tr t (l0 + d + 1)) j
                * (A.df ((tr.z.getD (l0 + d) []).getD i 0)
                  * dzAux A net tr l0 s d i
                  * tGet net.W (l0 + d + 1) i j))) :=
      Finset.sum_congr rfl (fun j _ => by rw [hdz j, Finset.mul_sum])
    rw [h1, Finset.sum_comm]
    apply Finset.sum_congr rfl
    intro i hi
    rw [sampleDelta_rec A net tr t (l0 + d) i (by omega)
      (Finset.mem_range.mp hi)]
    rw [Finset.mul_sum, Finset.sum_mul]
    apply Finset.sum_congr rfl
    intro j _
    ring

end GradCalc

theorem sigmoidR_pos (z : ℝ) : 0 < sigmoidR z := by
  unfold sigmoidR
  positivity

theorem sigmoidR_lt_one (z : ℝ) : sigmoidR z < 1 := by
  unfold sigmoidR
  rw [div_lt_one (by positivity)]
  have := Real.exp_pos (-z)
  linarith

theorem hasDerivAt_sigmoidR (z : ℝ) :
    HasDerivAt sigmoidR (sigmoidR z * (1 - sigmoidR z)) z := by
  have h1 : HasDerivAt (fun w : ℝ => -w) (-1 : ℝ) z := (hasDerivAt_id z).neg
  have hexp : HasDerivAt (fun w : ℝ => Real.exp (-w)) (-Real.exp (-z)) z := by
    simpa using (Real.hasDerivAt_exp (-z)).comp z h1
  have hden : HasDerivAt (fun w : ℝ => 1 + Real.exp (-w)) (-Real.exp (-z)) z := by
    simpa using hexp.const_add 1
  have hpos : (0 : ℝ) < 1 + Real.exp (-z) := by positivity
  have hinv := hden.inv (ne_of_gt hpos)
  have hfun : (fun w : ℝ => (1 + Real.exp (-w))⁻¹) = sigmoidR := by
    funext w
    show (1 + Real.exp (-w))⁻¹ = sigmoidR w
    unfold sigmoidR
    rw [one_div]
  rw [hfun] at hinv
  convert hinv using 1
  have hne : (1 : ℝ) + Real.exp (-z) ≠ 0 := ne_of_gt hpos
  unfold sigmoidR
  field_simp
  ring

theorem hasDerivAt_bce_sigmoid (t z : ℝ) :
    HasDerivAt (fun w => bceFree (sigmoidR w) t) (sigmoidR z - t) z := by
  have hσ := hasDerivAt_sigmoidR z
  have h0 : 0 < sigmoidR z := sigmoidR_pos z
  have h1 : sigmoidR z < 1 := sigmoidR_lt_one z
  have hlog1 : HasDerivAt (fun w => Real.log (sigmoidR w))
      ((sigmoidR z * (1 - sigmoidR z)) / sigmoidR z) z :=
    hσ.log (ne_of_gt h0)
  have hsub : HasDerivAt (fun w => 1 - sigmoidR w)
      (-(sigmoidR z * (1 - sigmoidR z))) z := by
    simpa using (hasDerivAt_const z (1 : ℝ)).sub hσ
  have hlog2 : HasDerivAt (fun w => Real.log (1 - sigmoidR w))
      ((-(sigmoidR z * (1 - sigmoidR z))) / (1 - sigmoidR z)) z :=
    hsub.log (by linarith)
  have hcomb := ((hlog1.const_mul t).add (hlog2.const_mul (1 - t))).neg
  have hfun : (fun w => bceFree (sigmoidR w) t)
      = fun w => -(t * Real.log (sigmoidR w)
          + (1 - t) * Real.log (1 - sigmoidR w)) := rfl
  rw [hfun]
  convert hcomb using 1
  have hne1 : sigmoidR z ≠ 0 := ne_of_gt h0
  have hne2 : (1 : ℝ) - sigmoidR z ≠ 0 := by linarith
  field_simp
  ring

theorem contribB_output (A : Act ℝ) (task : Task) (expF : ℝ → ℝ)
    (net : MLP ℝ) (p : (ℝ × ℝ) × ℝ) :
    contribB A task expF net p net.H.length 0
      = (sampleTrace A task expF net p).yhat - p.2 := by
  unfold contribB sampleDelta
  dsimp only
  rw [if_pos (by rw [sizesOf_length]; omega),
    show (sizesOf net.H).length - 2 - net.H.length = 0 by
      rw [sizesOf_length]; omega]
  rfl

/-- Derivative of a list-indexed finite sum of real functions. -/
theorem hasDerivAt_list_sum {β : Type*} (l : List β) (g : β → ℝ → ℝ)
    (g' : β → ℝ) (x : ℝ) (h : ∀ b ∈ l, HasDerivAt (g b) (g' b) x) :
    HasDerivAt (fun w => (l.map (fun b => g b w)).sum)
      ((l.map g').sum) x := by
  induction l with
  | nil => simpa using hasDerivAt_const x (0 : ℝ)
  | cons b l ih =>
    simp only [List.map_cons, List.sum_cons]
    exact (h b (by simp)).add (ih (fun c hc => h c (by simp [hc])))

/-- Under the classification task, the returned `yhat` is the sigmoid of
the single output pre-activation. -/
theorem yhat_classification (A : Act ℝ) (net : MLP ℝ) (x y : ℝ) :
    (forward A Task.classification Real.exp net x y).yhat
      = sigmoidR
          (vGet (zVec A Task.classification Real.exp net x y
            net.H.length) 0) := by
  rw [forward_yhat_eq]
  have h1 : aVec A Task.classification Real.exp net x y (net.H.length + 1)
      = (zLayer net (aVec A Task.classification Real.exp net x y
          net.H.length) net.H.length).map
          (outSquash Task.classification Real.exp) := by
    rw [show aVec A Task.classification Real.exp net x y (net.H.length + 1)
        = if net.H.length = (sizesOf net.H).length - 2 then
            (zLayer net (aVec A Task.classification Real.exp net x y
              net.H.length) net.H.length).map
              (outSquash Task.classification Real.exp)
          else (zLayer net (aVec A Task.classification Real.exp net x y
            net.H.length) net.H.length).map A.f from rfl]
    rw [if_pos (by rw [sizesOf_length]; omega)]
  rw [h1]
  unfold vGet
  rw [getD_map_lt (outSquash Task.classification Real.exp) _ 0 (0 : ℝ)
    (0 : ℝ) (by
      rw [show (zLayer net (aVec A Task.classification Real.exp net x y
          net.H.length) net.H.length).length
        = (sizesOf net.H).getD (net.H.length + 1) 0 by simp [zLayer]]
      rw [sizesOf_getD_last]
      omega)]
  rfl

/-- Tangent propagation through the hidden layers: if a one-parameter
family of nets `ν` agrees with `net` at `w0`, has the same depths, keeps
every layer above `l0` constant, and its layer-`l0` pre-activations have
tangent `s`, then the layer-`l0 + d` pre-activations have the tangent
`dzAux … d` computed on the frozen trace. -/
theorem deriv_propagate (A : Act ℝ) (task : Task) (expF : ℝ → ℝ)
    (net : MLP ℝ) (x y : ℝ)
    (hA : ∀ z, HasDerivAt A.f (A.df z) z)
    (ν : ℝ → MLP ℝ) (w0 : ℝ) (l0 : ℕ) (s : ℕ → ℝ)
    (hν0 : ν w0 = net)
    (hH : ∀ w, (ν w).H = net.H)
    (hWc : ∀ w m, l0 < m → (ν w).W.getD m [] = net.W.getD m [])
    (hBc : ∀ w m, l0 < m → (ν w).B.getD m [] = net.B.getD m [])
    (hbase : ∀ j, j < (sizesOf net.H).getD (l0 + 1) 0 →
      HasDerivAt (fun w => vGet (zVec A task expF (ν w) x y l0) j)
        (s j) w0) :
    ∀ d, l0 + d ≤ net.H.length →
      ∀ j, j < (sizesOf net.H).getD (l0 + d + 1) 0 →
        HasDerivAt
          (fun w => vGet (zVec A task expF (ν w) x y (l0 + d)) j)
          (dzAux A net (forward A task expF net x y) l0 s d j) w0 := by
  intro d
  induction d with
  | zero => intro hle j hj; exact hbase j hj
  | succ d ih =>
    intro hd j hj
    have hd' : l0 + d ≤ net.H.length := by omega
    rw [show l0 + (d + 1) = l0 + d + 1 from rfl] at hj ⊢
    have hfe : (fun w =>
          vGet (zVec A task expF (ν w) x y (l0 + d + 1)) j)
        = fun w => mGet net.B (l0 + d + 1) j
            + Finset.sum
                (Finset.range ((sizesOf net.H).getD (l0 + d + 1) 0))
                (fun i =>
                  A.f (vGet (zVec A task expF (ν w) x y (l0 + d)) i)
                    * tGet net.W (l0 + d + 1) i j) := by
      funext w
      rw [zVec_get, hH w, if_pos hj]
      congr 1
      · unfold mGet
        rw [hBc w (l0 + d + 1) (by omega)]
      · apply Finset.sum_congr rfl
        intro i hi
        rw [aVec_get_hidden A task expF (ν w) x y (l0 + d) i
          (by rw [hH w]; omega)
          (by rw [hH w]; exact Finset.mem_range.mp hi)]
        congr 1
        unfold tGet
        rw [hWc w (l0 + d + 1) (by omega)]
    rw [hfe]
    have hsum : HasDerivAt
        (fun w => Finset.sum
          (Finset.range ((sizesOf net.H).getD (l0 + d + 1) 0))
          (fun i => A.f (vGet (zVec A task expF (ν w) x y (l0 + d)) i)
            * tGet net.W (l0 + d + 1) i j))
        (Finset.sum (Finset.range ((sizesOf net.H).getD (l0 + d + 1) 0))
          (fun i =>
            A.df (((forward A task expF net x y).z.getD (l0 + d) []).getD
              i 0)
              * dzAux A net (forward A task expF net x y) l0 s d i
              * tGet net.W (l0 + d + 1) i j)) w0 := by
      apply HasDerivAt.sum
      intro i hi
      have hz := ih hd' i (Finset.mem_range.mp hi)
      have hcomp := (hA (vGet (zVec A task expF (ν w0) x y (l0 + d))
        i)).comp w0 hz
      have hmul := hcomp.mul_const (tGet net.W (l0 + d + 1) i j)
      have hpt : vGet (zVec A task expF (ν w0) x y (l0 + d)) i
          = ((forward A task expF net x y).z.getD (l0 + d) []).getD i 0 := by
        rw [hν0, forward_z_getD, if_pos (by omega)]
        rfl
      rw [hpt] at hmul
      simpa [Function.comp, vGet] using hmul
    exact hsum.const_add _

/-- Per-sample assembly: the spec delta of layer `l0` paired against the
seed tangent `s` is the derivative of the ε-free per-sample loss along
any net family that is frozen above layer `l0` and has layer-`l0`
pre-activation tangent `s`. -/
theorem sample_deriv (A : Act ℝ) (net : MLP ℝ) (x y t : ℝ)
    (hA : ∀ z, HasDerivAt A.f (A.df z) z)
    (ν : ℝ → MLP ℝ) (w0 : ℝ) (l0 : ℕ) (s : ℕ → ℝ)
    (hν0 : ν w0 = net) (hH : ∀ w, (ν w).H = net.H)
    (hWc : ∀ w m, l0 < m → (ν w).W.getD m [] = net.W.getD m [])
    (hBc : ∀ w m, l0 < m → (ν w).B.getD m [] = net.B.getD m [])
    (hl0 : l0 ≤ net.H.length)
    (hbase : ∀ j, j < (sizesOf net.H).getD (l0 + 1) 0 →
      HasDerivAt (fun w =>
        vGet (zVec A Task.classification Real.exp (ν w) x y l0) j)
        (s j) w0) :
    HasDerivAt
      (fun w => bceFree
        (forward A Task.classification Real.exp (ν w) x y).yhat t)
      (Finset.sum (Finset.range ((sizesOf net.H).getD (l0 + 1) 0)) (fun j =>
        vGet (sampleDelta A net
          (forward A Task.classification Real.exp net x y) t l0) j * s j))
      w0 := by
  have hd : l0 + (net.H.length - l0) ≤ net.H.length := by omega
  have hzout := deriv_propagate A Task.classification Real.exp net x y hA ν
    w0 l0 s hν0 hH hWc hBc hbase (net.H.length - l0) hd 0 (by
      rw [show l0 + (net.H.length - l0) + 1 = net.H.length + 1 by omega,
        sizesOf_getD_last]
      omega)
  rw [show l0 + (net.H.length - l0) = net.H.length by omega] at hzout
  have hg := hasDerivAt_bce_sigmoid t
    (vGet (zVec A Task.classification Real.exp (ν w0) x y net.H.length) 0)
  have hder := hg.comp w0 hzout
  have hfun : ((fun v => bceFree (sigmoidR v) t)
        ∘ fun w => vGet (zVec A Task.classification Real.exp (ν w) x y
          net.H.length) 0)
      = fun w => bceFree
          (forward A Task.classification Real.exp (ν w) x y).yhat t := by
    funext w
    show bceFree (sigmoidR (vGet (zVec A Task.classification Real.exp (ν w)
      x y net.H.length) 0)) t = _
    rw [yhat_classification A (ν w) x y, hH w]
  rw [hfun] at hder
  have hinv := delta_dz_invariant A net
    (forward A Task.classification Real.exp net x y) t l0 s
    (net.H.length - l0) hd
  rw [show l0 + (net.H.length - l0) = net.H.length by omega,
    sizesOf_getD_last, Finset.sum_range_one, sampleDelta_output] at hinv
  rw [show vGet
      ([(forward A Task.classification Real.exp net x y).yhat - t] :
        List ℝ) 0
      = (forward A Task.classification Real.exp net x y).yhat - t
    from rfl] at hinv
  have hval : (sigmoidR (vGet (zVec A Task.classification Real.exp (ν w0)
        x y net.H.length) 0) - t)
        * dzAux A net (forward A Task.classification Real.exp net x y) l0 s
          (net.H.length - l0) 0
      = Finset.sum (Finset.range ((sizesOf net.H).getD (l0 + 1) 0))
          (fun j => vGet (sampleDelta A net
            (forward A Task.classification Real.exp net x y) t l0) j
            * s j) := by
    rw [hν0, ← yhat_classification A net x y, hinv]
  rw [← hval]
  exact hder

/-- Batch assembly: the ε-free batch objective along a one-parameter net
family has derivative the batch mean of the delta/tangent pairings. -/
theorem batch_deriv (A : Act ℝ) (net : MLP ℝ) (XY : List (ℝ × ℝ))
    (yTrue : List ℝ) (hA : ∀ z, HasDerivAt A.f (A.df z) z)
    (ν : ℝ → MLP ℝ) (w0 : ℝ) (l0 : ℕ) (sFam : (ℝ × ℝ) × ℝ → ℕ → ℝ)
    (hν0 : ν w0 = net) (hH : ∀ w, (ν w).H = net.H)
    (hWc : ∀ w m, l0 < m → (ν w).W.getD m [] = net.W.getD m [])
    (hBc : ∀ w m, l0 < m → (ν w).B.getD m [] = net.B.getD m [])
    (hl0 : l0 ≤ net.H.length)
    (hbase : ∀ p ∈ XY.zip yTrue, ∀ j,
      j < (sizesOf net.H).getD (l0 + 1) 0 →
      HasDerivAt (fun w =>
        vGet (zVec A Task.classification Real.exp (ν w) p.1.1 p.1.2 l0) j)
        (sFam p j) w0) :
    HasDerivAt (fun w => batchBce A (ν w) XY yTrue)
      ((((XY.zip yTrue).map (fun p =>
        Finset.sum (Finset.range ((sizesOf net.H).getD (l0 + 1) 0))
          (fun j => vGet (sampleDelta A net
            (sampleTrace A Task.classification Real.exp net p) p.2 l0) j
            * sFam p j))).sum) / (XY.length : ℝ)) w0 := by
  unfold batchBce
  apply HasDerivAt.div_const
  apply hasDerivAt_list_sum
  intro p hp
  exact sample_deriv A net p.1.1 p.1.2 p.2 hA ν w0 l0 (sFam p) hν0 hH hWc
    hBc hl0 (hbase p hp)

/-- Base tangent for the weight curve: moving only `W[l0][i0][j0]` gives
the layer-`l0` pre-activations the tangent `a[l0][i0]` in coordinate
`j0` and `0` elsewhere. -/
theorem setW_base (A : Act ℝ) (task : Task) (expF : ℝ → ℝ) (net : MLP ℝ)
    (x y : ℝ) (l0 i0 j0 : ℕ) (h : WellShaped net)
    (hl0 : l0 < net.H.length + 1)
    (hi0 : i0 < (sizesOf net.H).getD l0 0)
    (hj0 : j0 < (sizesOf net.H).getD (l0 + 1) 0) :
    ∀ j, j < (sizesOf net.H).getD (l0 + 1) 0 →
      HasDerivAt
        (fun w => vGet (zVec A task expF (setW net l0 i0 j0 w) x y l0) j)
        (if j = j0 then vGet (aVec A task expF net x y l0) i0 else 0)
        (tGet net.W l0 i0 j0) := by
  intro j hj
  have hWl : l0 < net.W.length := by rw [wellShaped_w_length h]; omega
  have hWi : i0 < (net.W.getD l0 []).length := by
    rw [wellShaped_row_length h, if_pos hl0]
    exact hi0
  have hWj : j0 < ((net.W.getD l0 []).getD i0 []).length := by
    rw [wellShaped_entry_length h, if_pos ⟨hl0, hi0⟩]
    exact hj0
  have hfe : (fun w =>
        vGet (zVec A task expF (setW net l0 i0 j0 w) x y l0) j)
      = fun w => mGet net.B l0 j
          + Finset.sum (Finset.range ((sizesOf net.H).getD l0 0)) (fun i =>
              vGet (aVec A task expF net x y l0) i
                * (if i = i0 ∧ j = j0 then w else tGet net.W l0 i j)) := by
    funext w
    rw [zVec_get, show (setW net l0 i0 j0 w).H = net.H from rfl,
      if_pos hj, show (setW net l0 i0 j0 w).B = net.B from rfl,
      aVec_congr_below A task expF (setW net l0 i0 j0 w) net x y l0 rfl
        (fun m hm => setW_W_getD_ne net l0 i0 j0 w m (by omega))
        (fun m hm => rfl) l0 le_rfl]
    congr 1
    apply Finset.sum_congr rfl
    intro i hi
    rw [tGet_setW net l0 i0 j0 w hWl hWi hWj i j]
  rw [hfe]
  by_cases hjj : j = j0
  · rw [if_pos hjj]
    have hsum : HasDerivAt (fun w =>
        Finset.sum (Finset.range ((sizesOf net.H).getD l0 0)) (fun i =>
          vGet (aVec A task expF net x y l0) i
            * (if i = i0 ∧ j = j0 then w else tGet net.W l0 i j)))
        (Finset.sum (Finset.range ((sizesOf net.H).getD l0 0)) (fun i =>
          if i = i0 then vGet (aVec A task expF net x y l0) i else 0))
        (tGet net.W l0 i0 j0) := by
      apply HasDerivAt.sum
      intro i hi
      by_cases hii : i = i0
      · have hfi : (fun w => vGet (aVec A task expF net x y l0) i
            * (if i = i0 ∧ j = j0 then w else tGet net.W l0 i j))
            = fun w => vGet (aVec A task expF net x y l0) i * w := by
          funext w
          rw [if_pos ⟨hii, hjj⟩]
        rw [hfi, if_pos hii]
        simpa using (hasDerivAt_id' (tGet net.W l0 i0 j0)).const_mul
          (vGet (aVec A task expF net x y l0) i)
      · have hfi : (fun w => vGet (aVec A task expF net x y l0) i
            * (if i = i0 ∧ j = j0 then w else tGet net.W l0 i j))
            = fun w => vGet (aVec A task expF net x y l0) i
                * tGet net.W l0 i j := by
          funext w
          rw [if_neg (by tauto)]
        rw [hfi, if_neg hii]
        exact hasDerivAt_const _ _
    rw [Finset.sum_ite_eq' (Finset.range ((sizesOf net.H).getD l0 0)) i0
      (fun i => vGet (aVec A task expF net x y l0) i),
      if_pos (Finset.mem_range.mpr hi0)] at hsum
    exact hsum.const_add _
  · rw [if_neg hjj]
    have hcon : (fun w => mGet net.B l0 j
        + Finset.sum (Finset.range ((sizesOf net.H).getD l0 0)) (fun i =>
            vGet (aVec A task expF net x y l0) i
              * (if i = i0 ∧ j = j0 then w else tGet net.W l0 i j)))
        = fun w => mGet net.B l0 j
            + Finset.sum (Finset.range ((sizesOf net.H).getD l0 0))
                (fun i => vGet (aVec A task expF net x y l0) i
                  * tGet net.W l0 i j) := by
      funext w
      congr 1
      apply Finset.sum_congr rfl
      intro i hi
      rw [if_neg (by tauto)]
    rw [hcon]
    exact hasDerivAt_const _ _

/-- Base tangent for the bias curve: moving only `B[l0][j0]` gives the
layer-`l0` pre-activations the tangent `1` in coordinate `j0` and `0`
elsewhere. -/
theorem setB_base (A : Act ℝ) (task : Task) (expF : ℝ → ℝ) (net : MLP ℝ)
    (x y : ℝ) (l0 j0 : ℕ) (h : WellShaped net)
    (hl0 : l0 < net.H.length + 1)
    (hj0 : j0 < (sizesOf net.H).getD (l0 + 1) 0) :
    ∀ j, j < (sizesOf net.H).getD (l0 + 1) 0 →
      HasDerivAt
        (fun b => vGet (zVec A task expF (setB net l0 j0 b) x y l0) j)
        (if j = j0 then 1 else 0) (mGet net.B l0 j0) := by
  intro j hj
  have hBl : l0 < net.B.length := by rw [wellShaped_b_length h]; omega
  have hBj : j0 < (net.B.getD l0 []).length := by
    rw [wellShaped_b_entry_length h, if_pos hl0]
    exact hj0
  have hfe : (fun b =>
        vGet (zVec A task expF (setB net l0 j0 b) x y l0) j)
      = fun b => (if j = j0 then b else mGet net.B l0 j)
          + Finset.sum (Finset.range ((sizesOf net.H).getD l0 0)) (fun i =>
              vGet (aVec A task expF net x y l0) i
                * tGet net.W l0 i j) := by
    funext b
    rw [zVec_get, show (setB net l0 j0 b).H = net.H from rfl,
      if_pos hj, show (setB net l0 j0 b).W = net.W from rfl,
      mGet_setB net l0 j0 b hBl hBj j,
      aVec_congr_below A task expF (setB net l0 j0 b) net x y l0 rfl
        (fun m hm => rfl)
        (fun m hm => setB_B_getD_ne net l0 j0 b m (by omega)) l0 le_rfl]
  rw [hfe]
  by_cases hjj : j = j0
  · rw [if_pos hjj]
    have hid : (fun b : ℝ => (if j = j0 then b else mGet net.B l0 j)
        + Finset.sum (Finset.range ((sizesOf net.H).getD l0 0)) (fun i =>
            vGet (aVec A task expF net x y l0) i * tGet net.W l0 i j))
        = fun b : ℝ => b
            + Finset.sum (Finset.range ((sizesOf net.H).getD l0 0))
                (fun i => vGet (aVec A task expF net x y l0) i
                  * tGet net.W l0 i j) := by
      funext b
      rw [if_pos hjj]
    rw [hid]
    exact (hasDerivAt_id' (mGet net.B l0 j0)).add_const _
  · rw [if_neg hjj]
    have hcon : (fun b : ℝ => (if j = j0 then b else mGet net.B l0 j)
        + Finset.sum (Finset.range ((sizesOf net.H).getD l0 0)) (fun i =>
            vGet (aVec A task expF net x y l0) i * tGet net.W l0 i j))
        = fun b : ℝ => mGet net.B l0 j
            + Finset.sum (Finset.range ((sizesOf net.H).getD l0 0))
                (fun i => vGet (aVec A task expF net x y l0) i
                  * tGet net.W l0 i j) := by
      funext b
      rw [if_neg hjj]
    rw [hcon]
    exact hasDerivAt_const _ _

/-- Every weight entry of the returned gradients is the exact derivative
of the ε-free batch objective in that single weight. -/
theorem grad_setW (A : Act ℝ) (net : MLP ℝ) (XY : List (ℝ × ℝ))
    (yTrue : List ℝ) (hA : ∀ z, HasDerivAt A.f (A.df z) z)
    (h : WellShaped net) (l i j : ℕ) (hl : l < net.H.length + 1)
    (hi : i < (sizesOf net.H).getD l 0)
    (hj : j < (sizesOf net.H).getD (l + 1) 0) :
    HasDerivAt (fun w => batchBce A (setW net l i j w) XY yTrue)
      (tGet (computeBatchGrads A Task.classification Real.exp Real.log net
        XY yTrue).gW l i j)
      (tGet net.W l i j) := by
  have hD := batch_deriv A net XY yTrue hA (fun w => setW net l i j w)
    (tGet net.W l i j) l
    (fun p j2 => if j2 = j then
      vGet (aVec A Task.classification Real.exp net p.1.1 p.1.2 l) i
      else 0)
    (setW_self net l i j) (fun w => rfl)
    (fun w m hm => setW_W_getD_ne net l i j w m (by omega))
    (fun w m hm => rfl) (by omega)
    (fun p hp j2 hj2 => setW_base A Task.classification Real.exp net
      p.1.1 p.1.2 l i j h hl hi hj j2 hj2)
  have hmap : (XY.zip yTrue).map (fun p =>
      Finset.sum (Finset.range ((sizesOf net.H).getD (l + 1) 0)) (fun j2 =>
        vGet (sampleDelta A net (sampleTrace A Task.classification Real.exp
          net p) p.2 l) j2
          * (if j2 = j then vGet (aVec A Task.classification Real.exp net
              p.1.1 p.1.2 l) i else 0)))
      = (XY.zip yTrue).map (fun p =>
          contribW A Task.classification Real.exp net p l i j) := by
    apply List.map_congr_left
    intro p hp
    have hcol : Finset.sum (Finset.range ((sizesOf net.H).getD (l + 1) 0))
        (fun j2 => vGet (sampleDelta A net
          (sampleTrace A Task.classification Real.exp net p) p.2 l) j2
          * (if j2 = j then vGet (aVec A Task.classification Real.exp net
              p.1.1 p.1.2 l) i else 0))
        = Finset.sum (Finset.range ((sizesOf net.H).getD (l + 1) 0))
            (fun j2 => if j2 = j then
              vGet (sampleDelta A net (sampleTrace A Task.classification
                Real.exp net p) p.2 l) j2
                * vGet (aVec A Task.classification Real.exp net p.1.1
                  p.1.2 l) i
              else 0) :=
      Finset.sum_congr rfl (fun j2 h2 => by rw [mul_ite, mul_zero])
    rw [hcol,
      Finset.sum_ite_eq' (Finset.range ((sizesOf net.H).getD (l + 1) 0)) j
        (fun j2 => vGet (sampleDelta A net
          (sampleTrace A Task.classification Real.exp net p) p.2 l) j2
          * vGet (aVec A Task.classification Real.exp net p.1.1 p.1.2 l) i),
      if_pos (Finset.mem_range.mpr hj)]
    unfold contribW
    rw [sampleTrace_a_getD A Task.classification Real.exp net p l,
      if_pos (by omega), mul_comm]
  rw [hmap] at hD
  rw [computeBatchGrads_gW]
  exact hD

/-- Every bias entry of the returned gradients is the exact derivative
of the ε-free batch objective in that single bias. -/
theorem grad_setB (A : Act ℝ) (net : MLP ℝ) (XY : List (ℝ × ℝ))
    (yTrue : List ℝ) (hA : ∀ z, HasDerivAt A.f (A.df z) z)
    (h : WellShaped net) (l j : ℕ) (hl : l < net.H.length + 1)
    (hj : j < (sizesOf net.H).getD (l + 1) 0) :
    HasDerivAt (fun b => batchBce A (setB net l j b) XY yTrue)
      (mGet (computeBatchGrads A Task.classification Real.exp Real.log net
        XY yTrue).gB l j)
      (mGet net.B l j) := by
  have hD := batch_deriv A net XY yTrue hA (fun b => setB net l j b)
    (mGet net.B l j) l
    (fun p j2 => if j2 = j then 1 else 0)
    (setB_self net l j) (fun b => rfl)
    (fun b m hm => rfl)
    (fun b m hm => setB_B_getD_ne net l j b m (by omega)) (by omega)
    (fun p hp j2 hj2 => setB_base A Task.classification Real.exp net
      p.1.1 p.1.2 l j h hl hj j2 hj2)
  have hmap : (XY.zip yTrue).map (fun p =>
      Finset.sum (Finset.range ((sizesOf net.H).getD (l + 1) 0)) (fun j2 =>
        vGet (sampleDelta A net (sampleTrace A Task.classification Real.exp
          net p) p.2 l) j2 * (if j2 = j then (1 : ℝ) else 0)))
      = (XY.zip yTrue).map (fun p =>
          contribB A Task.classification Real.exp net p l j) := by
    apply List.map_congr_left
    intro p hp
    have hcol : Finset.sum (Finset.range ((sizesOf net.H).getD (l + 1) 0))
        (fun j2 => vGet (sampleDelta A net
          (sampleTrace A Task.classification Real.exp net p) p.2 l) j2
          * (if j2 = j then (1 : ℝ) else 0))
        = Finset.sum (Finset.range ((sizesOf net.H).getD (l + 1) 0))
            (fun j2 => if j2 = j then
              vGet (sampleDelta A net (sampleTrace A Task.classification
                Real.exp net p) p.2 l) j2
              else 0) :=
      Finset.sum_congr rfl (fun j2 h2 => by
        rw [mul_ite, mul_one, mul_zero])
    rw [hcol,
      Finset.sum_ite_eq' (Finset.range ((sizesOf net.H).getD (l + 1) 0)) j
        (fun j2 => vGet (sampleDelta A net
          (sampleTrace A Task.classification Real.exp net p) p.2 l) j2),
      if_pos (Finset.mem_range.mpr hj)]
    unfold contribB
    rfl
  rw [hmap] at hD
  rw [computeBatchGrads_gB]
  exact hD

/-- Derivative of `Math.tanh`: the registry formula `1 − tanh(z)²` is the
exact derivative, so `tanhAct` satisfies the differentiability hypothesis
of the gradient theorems. -/
theorem hasDerivAt_tanh (z : ℝ) :
    HasDerivAt Real.tanh (1 - Real.tanh z ^ 2) z := by
  have hc : Real.cosh z ≠ 0 := ne_of_gt (Real.cosh_pos z)
  have h := (Real.hasDerivAt_sinh z).div (Real.hasDerivAt_cosh z) hc
  have hfun : (fun x => Real.sinh x / Real.cosh x) = Real.tanh := by
    funext x
    rw [Real.tanh_eq_sinh_div_cosh]
  rw [hfun] at h
  convert h using 1
  rw [Real.tanh_eq_sinh_div_cosh]
  have hid := Real.cosh_sq_sub_sinh_sq z
  field_simp
  nlinarith [hid]

theorem tanhAct_deriv : ∀ z : ℝ, HasDerivAt tanhAct.f (tanhAct.df z) z :=
  fun z => hasDerivAt_tanh z

/-- C10 (confirmed).  For every activation whose registry `df` is the
exact derivative of its `f` (true of `tanh`: see `tanhAct_deriv`), every
well-shaped net and every non-empty classification batch: each entry
`gW[l][i][j]` and `gB[l][j]` of the gradients returned by
`computeBatchGrads` is the exact derivative, in that single parameter, of
the ε-free binary cross-entropy `batchBce` composed with the sigmoid
output (conjuncts 1–2; conjunct 3 spells out `batchBce` as the batch mean
of `bceFree∘yhat`); in particular the output-layer bias gradient is the
batch mean of `yhat − target` (conjunct 4), by the scalar derivative
identity d/dz BCE(σ(z), t) = σ(z) − t (conjunct 6); the loss scalar the
call returns is instead the batch mean of the ε-carrying
`−(t·log(yhat+1e-8) + (1−t)·log(1−yhat+1e-8))` (conjunct 5), and the two
loss functions genuinely differ (conjunct 7, at `yhat = σ(0)`, `t = 1`):
the returned loss and the returned gradients correspond to two slightly
different loss functions. -/
theorem C10_grad_vs_loss (A : Act ℝ) (net : MLP ℝ) (XY : List (ℝ × ℝ))
    (yTrue : List ℝ) (hA : ∀ z, HasDerivAt A.f (A.df z) z)
    (h : WellShaped net) (hne : XY ≠ []) (hlen : yTrue.length = XY.length) :
    (∀ l i j : ℕ, l < net.H.length + 1 →
      i < (sizesOf net.H).getD l 0 →
      j < (sizesOf net.H).getD (l + 1) 0 →
      HasDerivAt (fun w => batchBce A (setW net l i j w) XY yTrue)
        (tGet (computeBatchGrads A Task.classification Real.exp Real.log
          net XY yTrue).gW l i j)
        (tGet net.W l i j)) ∧
    (∀ l j : ℕ, l < net.H.length + 1 →
      j < (sizesOf net.H).getD (l + 1) 0 →
      HasDerivAt (fun b => batchBce A (setB net l j b) XY yTrue)
        (mGet (computeBatchGrads A Task.classification Real.exp Real.log
          net XY yTrue).gB l j)
        (mGet net.B l j)) ∧
    (batchBce A net XY yTrue
      = (((XY.zip yTrue).map (fun p =>
          bceFree (sampleTrace A Task.classification Real.exp net p).yhat
            p.2)).sum) / (XY.length : ℝ)) ∧
    (mGet (computeBatchGrads A Task.classification Real.exp Real.log
        net XY yTrue).gB net.H.length 0
      = (((XY.zip yTrue).map (fun p =>
          (sampleTrace A Task.classification Real.exp net p).yhat
            - p.2)).sum)
        / (XY.length : ℝ)) ∧
    ((computeBatchGrads A Task.classification Real.exp Real.log
        net XY yTrue).loss
      = (((XY.zip yTrue).map (fun p =>
          -(p.2 * Real.log
              ((sampleTrace A Task.classification Real.exp net p).yhat
                + 1e-8)
            + (1 - p.2) * Real.log
              (1 - (sampleTrace A Task.classification Real.exp
                net p).yhat + 1e-8)))).sum)
        / (XY.length : ℝ)) ∧
    (∀ t z : ℝ,
      HasDerivAt (fun w => bceFree (sigmoidR w) t) (sigmoidR z - t) z) ∧
    (sampleLoss Task.classification Real.log (sigmoidR 0) (1 : ℝ)
      ≠ bceFree (sigmoidR 0) 1) := by
  refine ⟨fun l i j hl hi hj => grad_setW A net XY yTrue hA h l i j hl hi hj,
    fun l j hl hj => grad_setB A net XY yTrue hA h l j hl hj,
    rfl, ?_, ?_, hasDerivAt_bce_sigmoid, ?_⟩
  · have hfun : (fun p => contribB A Task.classification Real.exp net p
        net.H.length 0)
        = fun p => (sampleTrace A Task.classification Real.exp net p).yhat
            - p.2 :=
      funext (fun p => contribB_output A Task.classification Real.exp net p)
    rw [computeBatchGrads_gB, hfun]
  · rw [computeBatchGrads_loss]
    rfl
  · have hs : sigmoidR 0 = 1 / 2 := by
      unfold sigmoidR
      rw [neg_zero, Real.exp_zero]
      norm_num
    have hlt : Real.log (1 / 2) < Real.log (1 / 2 + 1e-8) :=
      Real.log_lt_log (by norm_num) (by norm_num)
    rw [hs]
    show -(1 * Real.log (1 / 2 + 1e-8)
        + (1 - 1) * Real.log (1 - (1 / 2 : ℝ) + 1e-8))
      ≠ -(1 * Real.log (1 / 2) + (1 - 1) * Real.log (1 - (1 / 2 : ℝ)))
    intro heq
    norm_num at heq
    linarith

/-- Witness for `C10_grad_vs_loss`: the hypotheses hold for the registry
`tanh` activation (its `df` is the exact derivative), the worked-example
net and the one-point batch `[(0, 0)]` with target `[1]`; instantiating
the two gradient conjuncts at the output layer gives concrete exact
derivatives of the ε-free objective in `W[1][0][0]` and `B[1][0]`. -/
theorem C10_grad_vs_loss_witness :
    WellShaped exNetR ∧
    (([((0 : ℝ), 0)] : List (ℝ × ℝ)) ≠ []) ∧
    HasDerivAt
      (fun w => batchBce tanhAct (setW exNetR 1 0 0 w) [((0 : ℝ), 0)] [1])
      (tGet (computeBatchGrads tanhAct Task.classification Real.exp
        Real.log exNetR [((0 : ℝ), 0)] [1]).gW 1 0 0)
      (tGet exNetR.W 1 0 0) ∧
    HasDerivAt
      (fun b => batchBce tanhAct (setB exNetR 1 0 b) [((0 : ℝ), 0)] [1])
      (mGet (computeBatchGrads tanhAct Task.classification Real.exp
        Real.log exNetR [((0 : ℝ), 0)] [1]).gB 1 0)
      (mGet exNetR.B 1 0) := by
  have h : WellShaped exNetR := by decide
  refine ⟨h, List.cons_ne_nil _ _, ?_, ?_⟩
  · exact (C10_grad_vs_loss tanhAct exNetR [((0 : ℝ), 0)] [1] tanhAct_deriv
      h (List.cons_ne_nil _ _) rfl).1 1 0 0 (by decide) (by decide)
      (by decide)
  · exact (C10_grad_vs_loss tanhAct exNetR [((0 : ℝ), 0)] [1] tanhAct_deriv
      h (List.cons_ne_nil _ _) rfl).2.1 1 0 (by decide) (by decide)

end Neuro
